import Mathlib

set_option maxRecDepth 8192

/-!
Verification of the request-signing and key-custody subsystem of the
`@evlt/apix-client` package.  The definitions below are a shallow embedding of
the TypeScript sources (`src/client/ApiXRequest.ts`,
`src/client/types/ApiXErrorResponse.ts`, `src/client/error/ApiXResponseError.ts`,
`src/client/security/ApiXSymmetricEncryptionService.ts`): bytes are `Nat`
values below 256, JavaScript strings are Lean `String`s (with UTF-16 code unit
sequences made explicit where JavaScript semantics depend on them), and
JavaScript records are association lists in property insertion order.
-/

namespace ApiX

/-! ### Bytes, hex, base64 -/

/-- One lowercase hexadecimal digit, as produced by `Buffer.toString('hex')`. -/
def hexDigit (n : Nat) : Char :=
  if n < 10 then Char.ofNat (48 + n) else Char.ofNat (87 + n)

/-- `Buffer.toString('hex')`: lowercase hex rendering of a byte list. -/
def bytesToHex (bs : List Nat) : String :=
  String.mk (bs.flatMap fun b => [hexDigit (b / 16), hexDigit (b % 16)])

/-- Numeric value of one lowercase hex digit (`Buffer.from(_, 'hex')`). -/
def hexVal (c : Char) : Option Nat :=
  if 48 ≤ c.toNat ∧ c.toNat ≤ 57 then some (c.toNat - 48)
  else if 97 ≤ c.toNat ∧ c.toNat ≤ 102 then some (c.toNat - 87)
  else none

/-- `Buffer.from(_, 'hex')`: parse a hex string into bytes. -/
def hexDecode : List Char → Option (List Nat)
  | [] => some []
  | c1 :: c2 :: rest =>
    match hexVal c1, hexVal c2, hexDecode rest with
    | some h, some l, some bs => some ((h * 16 + l) :: bs)
    | _, _, _ => none
  | [_] => none

/-- The base64 alphabet used by `Buffer.toString('base64')`. -/
def base64Chars : List Char :=
  "ABCDEFGHIJKLMNOPQRSTUVWXYZabcdefghijklmnopqrstuvwxyz0123456789+/".data

def base64Char (n : Nat) : Char := base64Chars.getD n (Char.ofNat 65)

/-- `Buffer.toString('base64')` with standard `=` padding. -/
def base64Encode : List Nat → String
  | b0 :: b1 :: b2 :: rest =>
    String.mk [base64Char (b0 / 4), base64Char (b0 % 4 * 16 + b1 / 16),
      base64Char (b1 % 16 * 4 + b2 / 64), base64Char (b2 % 64)] ++ base64Encode rest
  | [b0, b1] =>
    String.mk [base64Char (b0 / 4), base64Char (b0 % 4 * 16 + b1 / 16),
      base64Char (b1 % 16 * 4), Char.ofNat 61]
  | [b0] =>
    String.mk [base64Char (b0 / 4), base64Char (b0 % 4 * 16), Char.ofNat 61, Char.ofNat 61]
  | [] => ""

/-! ### UTF-8 -/

/-- UTF-8 encoding of one Unicode scalar value (as a `Char`), as bytes. -/
def utf8EncodeCharNat (c : Char) : List Nat :=
  let v := c.toNat
  if v < 128 then [v]
  else if v < 2048 then [192 + v / 64, 128 + v % 64]
  else if v < 65536 then [224 + v / 4096, 128 + v / 64 % 64, 128 + v % 64]
  else [240 + v / 262144, 128 + v / 4096 % 64, 128 + v / 64 % 64, 128 + v % 64]

/-- UTF-8 encoding of a string, as bytes (`Buffer.from(s, 'utf-8')`). -/
def utf8Encode (s : String) : List Nat := s.data.flatMap utf8EncodeCharNat

/-- Is `b` a UTF-8 continuation byte? -/
def contByte (b : Nat) : Bool := 128 ≤ b && b < 192

def utf8Dec2 (b0 : Nat) : List Nat → Option (Char × List Nat)
  | b1 :: rest =>
    if contByte b1 then some (Char.ofNat ((b0 - 192) * 64 + (b1 - 128)), rest) else none
  | [] => none

def utf8Dec3 (b0 : Nat) : List Nat → Option (Char × List Nat)
  | b1 :: b2 :: rest =>
    if contByte b1 && contByte b2 then
      some (Char.ofNat ((b0 - 224) * 4096 + (b1 - 128) * 64 + (b2 - 128)), rest)
    else none
  | _ => none

def utf8Dec4 (b0 : Nat) : List Nat → Option (Char × List Nat)
  | b1 :: b2 :: b3 :: rest =>
    if contByte b1 && contByte b2 && contByte b3 then
      some (Char.ofNat ((b0 - 240) * 262144 + (b1 - 128) * 4096 + (b2 - 128) * 64
        + (b3 - 128)), rest)
    else none
  | _ => none

/-- Decode one UTF-8 sequence, returning the character and the remaining
bytes. -/
def utf8DecodeOne : List Nat → Option (Char × List Nat)
  | [] => none
  | b0 :: rest =>
    if b0 < 128 then some (Char.ofNat b0, rest)
    else if b0 < 192 then none
    else if b0 < 224 then utf8Dec2 b0 rest
    else if b0 < 240 then utf8Dec3 b0 rest
    else if b0 < 248 then utf8Dec4 b0 rest
    else none

/-- UTF-8 decoder (strict; correct on all valid encodings, which is the only
domain on which the embedded code applies it).  Fuel-based so the definition
evaluates inside the kernel; each step consumes at least one byte, so the
byte count is enough fuel. -/
def utf8DecodeListAux : Nat → List Nat → Option (List Char)
  | _, [] => some []
  | 0, _ :: _ => none
  | fuel + 1, b0 :: rest =>
    match utf8DecodeOne (b0 :: rest) with
    | some (c, rest2) => (utf8DecodeListAux fuel rest2).map (fun cs => c :: cs)
    | none => none

def utf8DecodeList (bs : List Nat) : Option (List Char) :=
  utf8DecodeListAux bs.length bs

/-- `Buffer.toString('utf8')` restricted to valid encodings. -/
def utf8Decode (bs : List Nat) : Option String :=
  (utf8DecodeList bs).map fun cs => String.mk cs

/-! ### UTF-16 code units (JavaScript string semantics) -/

/-- The UTF-16 code units of one character. -/
def utf16Char (c : Char) : List Nat :=
  if c.toNat < 65536 then [c.toNat]
  else [55296 + (c.toNat - 65536) / 1024, 56320 + (c.toNat - 65536) % 1024]

/-- The UTF-16 code units of a string: the JavaScript view of the string
(`.length`, indexing, default sort order and `padEnd`/`slice` all work on
these units). -/
def utf16Units (s : String) : List Nat := s.data.flatMap utf16Char

/-- `Buffer.from(s, 'binary')` (a.k.a. `latin1`): each UTF-16 code unit
truncated to its low byte. -/
def latin1Bytes (s : String) : List Nat := (utf16Units s).map (fun u => u % 256)

/-! ### SHA-256 and HMAC-SHA256 (`crypto.createHmac('sha256', _)`) -/

def w32 (n : Nat) : Nat := n % 4294967296

def rotr32 (n x : Nat) : Nat := x / 2 ^ n + x % 2 ^ n * 2 ^ (32 - n)

def shr32 (n x : Nat) : Nat := x / 2 ^ n

def not32 (x : Nat) : Nat := 4294967295 - x

def bigSigma0 (x : Nat) : Nat := rotr32 2 x ^^^ rotr32 13 x ^^^ rotr32 22 x

def bigSigma1 (x : Nat) : Nat := rotr32 6 x ^^^ rotr32 11 x ^^^ rotr32 25 x

def smallSigma0 (x : Nat) : Nat := rotr32 7 x ^^^ rotr32 18 x ^^^ shr32 3 x

def smallSigma1 (x : Nat) : Nat := rotr32 17 x ^^^ rotr32 19 x ^^^ shr32 10 x

def chFn (x y z : Nat) : Nat := (x &&& y) ^^^ (not32 x &&& z)

def majFn (x y z : Nat) : Nat := (x &&& y) ^^^ (x &&& z) ^^^ (y &&& z)

def sha256K : List Nat :=
  [1116352408, 1899447441, 3049323471, 3921009573, 961987163, 1508970993,
   2453635748, 2870763221, 3624381080, 310598401, 607225278, 1426881987,
   1925078388, 2162078206, 2614888103, 3248222580, 3835390401, 4022224774,
   264347078, 604807628, 770255983, 1249150122, 1555081692, 1996064986,
   2554220882, 2821834349, 2952996808, 3210313671, 3336571891, 3584528711,
   113926993, 338241895, 666307205, 773529912, 1294757372, 1396182291,
   1695183700, 1986661051, 2177026350, 2456956037, 2730485921, 2820302411,
   3259730800, 3345764771, 3516065817, 3600352804, 4094571909, 275423344,
   430227734, 506948616, 659060556, 883997877, 958139571, 1322822218,
   1537002063, 1747873779, 1955562222, 2024104815, 2227730452, 2361852424,
   2428436474, 2756734187, 3204031479, 3329325298]

def sha256Init : List Nat :=
  [1779033703, 3144134277, 1013904242, 2773480762, 1359893119, 2600822924,
   528734635, 1541459225]

/-- Big-endian byte rendering of `n` in `len` bytes. -/
def natToBytesBE (n len : Nat) : List Nat :=
  (List.range len).map fun i => n / 2 ^ (8 * (len - 1 - i)) % 256

/-- Group bytes into big-endian 32-bit words. -/
def bytesToWords : List Nat → List Nat
  | b0 :: b1 :: b2 :: b3 :: rest => (((b0 * 256 + b1) * 256 + b2) * 256 + b3) :: bytesToWords rest
  | _ => []

/-- SHA-256 message padding. -/
def sha256Pad (msg : List Nat) : List Nat :=
  let L := msg.length
  let zeros := (64 - (L + 9) % 64) % 64
  msg ++ [128] ++ List.replicate zeros 0 ++ natToBytesBE (L * 8) 8

/-- Message schedule: 16 block words extended to 64. -/
def sha256Schedule (block : List Nat) : List Nat :=
  (List.range 48).foldl
    (fun w _ =>
      w ++ [w32 (smallSigma1 (w.getD (w.length - 2) 0) + w.getD (w.length - 7) 0 +
        smallSigma0 (w.getD (w.length - 15) 0) + w.getD (w.length - 16) 0)])
    block

/-- One SHA-256 compression step. -/
def sha256Round (w : List Nat) (st : Nat × Nat × Nat × Nat × Nat × Nat × Nat × Nat) (i : Nat) :
    Nat × Nat × Nat × Nat × Nat × Nat × Nat × Nat :=
  match st with
  | (a, b, c, d, e, f, g, h) =>
    let t1 := w32 (h + bigSigma1 e + chFn e f g + sha256K.getD i 0 + w.getD i 0)
    let t2 := w32 (bigSigma0 a + majFn a b c)
    (w32 (t1 + t2), a, b, c, w32 (d + t1), e, f, g)

/-- SHA-256 compression of one 16-word block into the running hash. -/
def sha256Compress (hs block : List Nat) : List Nat :=
  let w := sha256Schedule block
  let g := fun i => hs.getD i 0
  match (List.range 64).foldl (sha256Round w) (g 0, g 1, g 2, g 3, g 4, g 5, g 6, g 7) with
  | (a, b, c, d, e, f, g2, h) =>
    [w32 (g 0 + a), w32 (g 1 + b), w32 (g 2 + c), w32 (g 3 + d),
     w32 (g 4 + e), w32 (g 5 + f), w32 (g 6 + g2), w32 (g 7 + h)]

/-- Split a byte list into 64-byte chunks (structural recursion on a fuel
bound so the definition evaluates inside the kernel). -/
def chunks64Aux : Nat → List Nat → List (List Nat)
  | 0, _ => []
  | _, [] => []
  | fuel + 1, msg => msg.take 64 :: chunks64Aux fuel (msg.drop 64)

/-- Split a byte list into 64-byte chunks. -/
def chunks64 (msg : List Nat) : List (List Nat) := chunks64Aux msg.length msg

/-- SHA-256 of a byte list. -/
def sha256 (msg : List Nat) : List Nat :=
  let padded := sha256Pad msg
  let H := (chunks64 padded).foldl (fun hs block => sha256Compress hs (bytesToWords block))
    sha256Init
  H.flatMap fun h => natToBytesBE h 4

/-- HMAC-SHA256 over bytes. -/
def hmacSha256 (key msg : List Nat) : List Nat :=
  let k0 := if key.length > 64 then sha256 key else key
  let kPad := k0 ++ List.replicate (64 - k0.length) 0
  let ipadKey := kPad.map fun b => b ^^^ 54
  let opadKey := kPad.map fun b => b ^^^ 92
  sha256 (opadKey ++ sha256 (ipadKey ++ msg))

/-! ### JavaScript string order (default `Array.prototype.sort` comparison) -/

/-- Lexicographic order on code-unit lists. -/
def ltUnits : List Nat → List Nat → Bool
  | [], [] => false
  | [], _ :: _ => true
  | _ :: _, [] => false
  | a :: as, b :: bs => if a < b then true else if b < a then false else ltUnits as bs

/-- JavaScript `<` on strings: lexicographic comparison of UTF-16 code units
(what `Array.prototype.sort()` without a comparator uses). -/
def jsStrLt (a b : String) : Bool := ltUnits (utf16Units a) (utf16Units b)

/-- The corresponding non-strict order. -/
def jsStrLe (a b : String) : Bool := !jsStrLt b a

/-! ### JSON values (`ApiXJsonObject` bodies and response payloads) -/

/-- A JSON value.  Objects are field lists in property insertion order
(JavaScript objects preserve string-key insertion order), which is also the
order `JSON.stringify` serializes them in. -/
inductive JsonValue where
  | str (s : String)
  | num (n : Int)
  | bool (b : Bool)
  | null
  | arr (elems : List JsonValue)
  | obj (fields : List (String × JsonValue))
deriving Inhabited

/-- Key order used by `Object.keys(obj).sort()`. -/
def keyLe (p q : String × JsonValue) : Prop := jsStrLe p.1 q.1 = true

instance : DecidableRel keyLe := fun p q => inferInstanceAs (Decidable (_ = true))

/-- Sorting an object's field list by key.  The source sorts the key array with
`Array.prototype.sort()` (default string comparison) and rebuilds the object in
that key order; since JavaScript object keys are unique, this equals the stable
insertion sort of the field list by key. -/
def sortPairs (fields : List (String × JsonValue)) : List (String × JsonValue) :=
  List.insertionSort keyLe fields

mutual

/-- `ApiXRequest.sortedObjectKeys`: sorts all the keys of an object
recursively.  A field's value is recursed into exactly when it is a non-null,
non-array object (`value !== null && typeof value === 'object' &&
!Array.isArray(value)`); array elements are left untouched.  (The source sorts
the keys first and then maps the values; mapping first and then sorting
produces the same list since the sort only reorders fields.) -/
def sortedObjectKeys (fields : List (String × JsonValue)) : List (String × JsonValue) :=
  sortPairs (sortedFieldValues fields)

/-- Recursive treatment of each field's value. -/
def sortedFieldValues : List (String × JsonValue) → List (String × JsonValue)
  | [] => []
  | (k, v) :: rest => (k, sortedValue v) :: sortedFieldValues rest

/-- The per-value step: recurse into plain objects, leave anything else. -/
def sortedValue : JsonValue → JsonValue
  | .obj fields => .obj (sortPairs (sortedFieldValues fields))
  | v => v

end

/-! ### `JSON.stringify` -/

/-- `JSON.stringify` escaping for one character inside a string literal. -/
def escapeJsonChar (c : Char) : List Char :=
  if c = Char.ofNat 34 then [Char.ofNat 92, Char.ofNat 34]
  else if c = Char.ofNat 92 then [Char.ofNat 92, Char.ofNat 92]
  else if c = Char.ofNat 8 then [Char.ofNat 92, Char.ofNat 98]
  else if c = Char.ofNat 9 then [Char.ofNat 92, Char.ofNat 116]
  else if c = Char.ofNat 10 then [Char.ofNat 92, Char.ofNat 110]
  else if c = Char.ofNat 12 then [Char.ofNat 92, Char.ofNat 102]
  else if c = Char.ofNat 13 then [Char.ofNat 92, Char.ofNat 114]
  else if c.toNat < 32 then
    [Char.ofNat 92, Char.ofNat 117, Char.ofNat 48, Char.ofNat 48,
     hexDigit (c.toNat / 16), hexDigit (c.toNat % 16)]
  else [c]

/-- A JSON string literal: `"` + escaped contents + `"`. -/
def quoteJsonString (s : String) : String :=
  String.mk (Char.ofNat 34 :: (s.data.flatMap escapeJsonChar ++ [Char.ofNat 34]))

mutual

/-- Compact `JSON.stringify` of a value. -/
def stringifyValue : JsonValue → String
  | .str s => quoteJsonString s
  | .num n => toString n
  | .bool b => if b then "true" else "false"
  | .null => "null"
  | .arr elems => "[" ++ String.intercalate "," (stringifyList elems) ++ "]"
  | .obj fields => "\x7b" ++ String.intercalate "," (stringifyFields fields) ++ "\x7d"

def stringifyList : List JsonValue → List String
  | [] => []
  | v :: rest => stringifyValue v :: stringifyList rest

def stringifyFields : List (String × JsonValue) → List String
  | [] => []
  | (k, v) :: rest => (quoteJsonString k ++ ":" ++ stringifyValue v) :: stringifyFields rest

end

/-! ### The signature (`ApiXRequest.generateSignature`) -/

/-- The parts of a WHATWG `URL` the signing code reads. -/
structure UrlParts where
  pathname : String
  search : String

/-- The canonical message built inside `generateSignature`:
`pathWithQueries.METHOD.nonce.date.base64Body` where the body contribution is
empty for an absent or empty body, and otherwise the base64 of the
key-sorted `JSON.stringify` output read as `binary` (latin1) bytes. -/
def canonicalMessage (url : UrlParts) (httpMethod : String)
    (data : Option (List (String × JsonValue))) (nonce dateString : String) : String :=
  let httpBody := data.getD []
  let stringifiedJsonBody :=
    if httpBody.length > 0 then stringifyValue (.obj (sortedObjectKeys httpBody)) else ""
  let httpBodyBase64 :=
    if stringifiedJsonBody.length > 0 then base64Encode (latin1Bytes stringifiedJsonBody) else ""
  url.pathname ++ url.search ++ "." ++ httpMethod ++ "." ++ nonce ++ "." ++ dateString ++ "."
    ++ httpBodyBase64

/-- `ApiXRequest.generateSignature(appKey, dateString, nonce)`: HMAC-SHA256 of
the canonical message keyed by the application key, rendered as lowercase
hex.  `url`, `httpMethod` and `data` are the request's fields. -/
def generateSignature (url : UrlParts) (httpMethod : String)
    (data : Option (List (String × JsonValue))) (appKey dateString nonce : String) : String :=
  bytesToHex (hmacSha256 (utf8Encode appKey)
    (utf8Encode (canonicalMessage url httpMethod data nonce dateString)))

/-- The body contribution to the canonical message: empty for an absent or
empty body, otherwise the base64 of the key-sorted JSON encoding. -/
def bodyContribution (data : Option (List (String × JsonValue))) : String :=
  let httpBody := data.getD []
  let stringifiedJsonBody :=
    if httpBody.length > 0 then stringifyValue (.obj (sortedObjectKeys httpBody)) else ""
  if stringifiedJsonBody.length > 0 then base64Encode (latin1Bytes stringifiedJsonBody) else ""

/-- `{"a":[{"x":1,"y":2}]}` — an object nested inside an array. -/
def bodyInArr1 : List (String × JsonValue) := [("a", .arr [.obj [("x", .num 1), ("y", .num 2)]])]

/-- `{"a":[{"y":2,"x":1}]}` — the same object content with the nested keys in
the opposite insertion order. -/
def bodyInArr2 : List (String × JsonValue) := [("a", .arr [.obj [("y", .num 2), ("x", .num 1)]])]

/-- `{key:'value', key2:{z:'z', y:'y'}}` (the body of the repository's own
key-order test). -/
def keyOrderBody1 : List (String × JsonValue) :=
  [("key", .str "value"), ("key2", .obj [("z", .str "z"), ("y", .str "y")])]

/-- The same content with both nesting levels reordered. -/
def keyOrderBody2 : List (String × JsonValue) :=
  [("key2", .obj [("y", .str "y"), ("z", .str "z")]), ("key", .str "value")]

/-! ### Key uniqueness and structural equivalence of JSON values -/

/-- Are the strings in the list pairwise distinct?  (JavaScript object keys
always are.) -/
def nodupStrKeys : List String → Bool
  | [] => true
  | k :: rest => !(rest.contains k) && nodupStrKeys rest

mutual

/-- Every object in the value (at any depth) has pairwise-distinct keys.
True of every value representing a JavaScript object. -/
def nodupKeysB : JsonValue → Bool
  | .obj fields => nodupStrKeys (fields.map Prod.fst) && nodupFieldsB fields
  | .arr elems => nodupElemsB elems
  | _ => true

def nodupFieldsB : List (String × JsonValue) → Bool
  | [] => true
  | (_, v) :: rest => nodupKeysB v && nodupFieldsB rest

def nodupElemsB : List JsonValue → Bool
  | [] => true
  | v :: rest => nodupKeysB v && nodupElemsB rest

end

/-- JavaScript property access `fields[k]` on an object in insertion order. -/
def lookupField (k : String) : List (String × JsonValue) → Option JsonValue
  | [] => none
  | (k2, v) :: rest => if k2 = k then some v else lookupField k rest

mutual

/-- The claim's notion of structural equality: equal except for object key
insertion order, at any depth — including objects nested inside arrays.
(On values whose objects have distinct keys and equal field counts this is
the usual permutation equivalence.) -/
def jsonEquivB : JsonValue → JsonValue → Bool
  | .str a, .str b => a == b
  | .num a, .num b => a == b
  | .bool a, .bool b => a == b
  | .null, .null => true
  | .arr xs, .arr ys => jsonEquivElemsB xs ys
  | .obj fa, .obj fb => fa.length == fb.length && jsonEquivFieldsB fa fb
  | _, _ => false

def jsonEquivElemsB : List JsonValue → List JsonValue → Bool
  | [], [] => true
  | x :: xs, y :: ys => jsonEquivB x y && jsonEquivElemsB xs ys
  | _, _ => false

def jsonEquivFieldsB : List (String × JsonValue) → List (String × JsonValue) → Bool
  | [], _ => true
  | (k, v) :: rest, fb =>
    (match lookupField k fb with
     | some w => jsonEquivB v w
     | none => false) && jsonEquivFieldsB rest fb

end

/-- Equality of JSON values up to object-key insertion order at positions NOT
inside arrays: the closure of (a) permuting a field list and (b) rewriting one
field's value, under reflexivity and transitivity.  This is the equivalence
`sortedObjectKeys` actually normalizes, since it never recurses into array
elements. -/
inductive KeyPerm : JsonValue → JsonValue → Prop where
  | refl (v : JsonValue) : KeyPerm v v
  | permFields (fa fb : List (String × JsonValue)) :
      fa.Perm fb → KeyPerm (.obj fa) (.obj fb)
  | congrField (l1 l2 : List (String × JsonValue)) (k : String) (v w : JsonValue) :
      KeyPerm v w → KeyPerm (.obj (l1 ++ (k, v) :: l2)) (.obj (l1 ++ (k, w) :: l2))
  | trans {u v w : JsonValue} : KeyPerm u v → KeyPerm v w → KeyPerm u w

/-- Number of top-level fields of an object value. -/
def numFields : JsonValue → Nat
  | .obj f => f.length
  | _ => 0

/-! ### Header name normalization (`name.trim().toLowerCase()`) -/

/-- ASCII whitespace trimmed by JavaScript `String.prototype.trim` (the
header names in play are ASCII; the full JS set also has Unicode spaces). -/
def isWsChar (c : Char) : Bool :=
  c.toNat = 32 || c.toNat = 9 || c.toNat = 10 || c.toNat = 13 || c.toNat = 11 || c.toNat = 12

/-- ASCII lowercasing as done by `String.prototype.toLowerCase` on the ASCII
range (non-ASCII characters in header names are out of the modelled domain). -/
def lowerChar (c : Char) : Char :=
  if 65 ≤ c.toNat ∧ c.toNat ≤ 90 then Char.ofNat (c.toNat + 32) else c

/-- `trim`: drop leading and trailing whitespace. -/
def trimChars (l : List Char) : List Char :=
  ((l.dropWhile isWsChar).reverse.dropWhile isWsChar).reverse

/-- `ApiXRequest.headerName(name)`: `name.trim().toLowerCase()`. -/
def headerName (name : String) : String :=
  String.mk ((trimChars name.data).map lowerChar)

/-! ### Header tiers (`ApiXRequest` private record fields) -/

/-- The `ProtectedHeaders` enum values. -/
def protectedHeaderNames : List String := ["X-Signature", "X-Signature-Nonce", "X-API-Key"]

/-- The `ReadOnlyHeaders` enum values. -/
def readOnlyHeaderNames : List String := ["Content-Type", "Date"]

/-- `ApiXRequest.isProtectedHeader(name)`. -/
def isProtectedHeader (name : String) : Bool :=
  (protectedHeaderNames.map headerName).contains (headerName name)

/-- `ApiXRequest.isReadOnlyHeader(name)`. -/
def isReadOnlyHeader (name : String) : Bool :=
  (readOnlyHeaderNames.map headerName).contains (headerName name)

/-- `record[k] = v` on a JavaScript `Record<string, string>`: an existing key
keeps its position, a new key is appended (string-key insertion order). -/
def recSet : List (String × String) → String → String → List (String × String)
  | [], k, v => [(k, v)]
  | (k2, v2) :: rest, k, v =>
    if k2 = k then (k, v) :: rest else (k2, v2) :: recSet rest k v

/-- `delete record[k]`. -/
def recDelete : List (String × String) → String → List (String × String)
  | [], _ => []
  | (k2, v2) :: rest, k => if k2 = k then rest else (k2, v2) :: recDelete rest k

/-- `record[k]`, `undefined` as `none`. -/
def recGet : List (String × String) → String → Option String
  | [], _ => none
  | (k2, v2) :: rest, k => if k2 = k then some v2 else recGet rest k

/-- The spread `{...a, ...b}` restricted to two records. -/
def spreadMerge (a b : List (String × String)) : List (String × String) :=
  b.foldl (fun acc p => recSet acc p.1 p.2) a

/-- The mutable per-request state: the three header tiers, the cookie store
and the `sent` flag. -/
structure RequestState where
  protectedHeaders : List (String × String)
  readOnlyHeaders : List (String × String)
  unprotectedHeaders : List (String × String)
  cookiesStore : List (String × String)
  sent : Bool
deriving DecidableEq

/-- The immutable request fields the signing code reads. -/
structure RequestCtx where
  url : UrlParts
  httpMethod : String
  data : Option (List (String × JsonValue))

/-- `initializeReadOnlyHeaders` (run by the constructor): content type and the
captured request date. -/
def initializeReadOnlyHeaders (requestDate : String) : List (String × String) :=
  recSet (recSet [] (headerName "Content-Type") "application/json")
    (headerName "Date") requestDate

/-- The state of a freshly constructed request. -/
def initialState (requestDate : String) : RequestState :=
  { protectedHeaders := [], readOnlyHeaders := initializeReadOnlyHeaders requestDate,
    unprotectedHeaders := [], cookiesStore := [], sent := false }

/-- `ApiXRequest.setHeader`: refuses protected and read-only names, stores the
lowercased name; `.error` models the thrown `ApiXRequestError` (no state is
produced, so no header map changes). -/
def setHeader (s : RequestState) (name value : String) : Except String RequestState :=
  let hn := headerName name
  if isProtectedHeader hn || isReadOnlyHeader hn then
    .error ("Attempting to set a protected header: " ++ name ++ "!")
  else
    .ok { s with unprotectedHeaders := recSet s.unprotectedHeaders hn value }

/-- `ApiXRequest.unsetHeader`. -/
def unsetHeader (s : RequestState) (name : String) : Except String RequestState :=
  let hn := headerName name
  if isProtectedHeader hn || isReadOnlyHeader hn then
    .error ("Attempting to unset a protected header: " ++ name ++ "!")
  else
    .ok { s with unprotectedHeaders := recDelete s.unprotectedHeaders hn }

/-- `ApiXRequest.header`: read access; `unprotected[h] || readOnly[h]` with
JavaScript truthiness (an empty string falls through to the read-only map). -/
def header (s : RequestState) (name : String) : Except String (Option String) :=
  let hn := headerName name
  if isProtectedHeader hn then
    .error ("Invalid access. " ++ name ++ " is a protected header and cannot be accessed.")
  else
    .ok (match recGet s.unprotectedHeaders hn with
      | some v => if v.length > 0 then some v else recGet s.readOnlyHeaders hn
      | none => recGet s.readOnlyHeaders hn)

/-- `setCookies`: merge, overwriting conflicts, keeping others. -/
def setCookies (s : RequestState) (cookies : List (String × String)) : RequestState :=
  { s with cookiesStore := spreadMerge s.cookiesStore cookies }

/-- `addCookie`. -/
def addCookie (s : RequestState) (n v : String) : RequestState :=
  { s with cookiesStore := recSet s.cookiesStore n v }

/-- `removeCookie`. -/
def removeCookie (s : RequestState) (n : String) : RequestState :=
  { s with cookiesStore := recDelete s.cookiesStore n }

/-- `getCookie`. -/
def getCookie (s : RequestState) (n : String) : Option String :=
  recGet s.cookiesStore n

/-- `getCookieHeader`: `name=value` pairs joined by `; ` in insertion order. -/
def getCookieHeader (s : RequestState) : String :=
  String.intercalate "; " (s.cookiesStore.map fun p => p.1 ++ "=" ++ p.2)

/-- The public `headers` getter:
`{...unprotectedHeaders, Cookie: cookieHeader, ...readOnlyHeaders}`. -/
def headersGetter (s : RequestState) : List (String × String) :=
  spreadMerge (spreadMerge s.unprotectedHeaders [("Cookie", getCookieHeader s)])
    s.readOnlyHeaders

/-- The private `allHeaders` getter used for the transport call. -/
def allHeaders (s : RequestState) : List (String × String) :=
  spreadMerge (spreadMerge (spreadMerge s.unprotectedHeaders s.readOnlyHeaders)
    [("Cookie", getCookieHeader s)]) s.protectedHeaders

/-- `initializeProtectedHeaders(apiKey, appKey)`: reads the request date from
the read-only map (a missing entry would interpolate as `"undefined"`),
computes the signature and stores the three protected entries. -/
def initializeProtectedHeaders (ctx : RequestCtx) (s : RequestState)
    (apiKey appKey nonce : String) : RequestState :=
  let requestDate := (recGet s.readOnlyHeaders (headerName "Date")).getD "undefined"
  let signature := generateSignature ctx.url ctx.httpMethod ctx.data appKey requestDate nonce
  { s with protectedHeaders :=
      recSet (recSet (recSet s.protectedHeaders (headerName "X-API-Key") apiKey)
        (headerName "X-Signature") signature) (headerName "X-Signature-Nonce") nonce }

/-- `unsetProtectedHeaders` — translated verbatim from the source, which
deletes the API-key entry from `readOnlyHeaders` (not `protectedHeaders`):
`delete this.readOnlyHeaders[this.headerName(ProtectedHeaders.ApiKey)]`. -/
def unsetProtectedHeaders (s : RequestState) : RequestState :=
  { s with
    readOnlyHeaders := recDelete s.readOnlyHeaders (headerName "X-API-Key"),
    protectedHeaders :=
      recDelete (recDelete s.protectedHeaders (headerName "X-Signature"))
        (headerName "X-Signature-Nonce") }

/-! ### Response classification (`isApiXErrorResponse`, `errorForResponse`) -/

/-- `isApiXErrorResponse(data)`: requires `success === false` (a boolean) AND
a non-null object `error` whose `id` and `message` are both strings. -/
def isApiXErrorResponse (data : JsonValue) : Bool :=
  match data with
  | .obj fields =>
    (match lookupField "success" fields with
     | some (.bool b) => !b
     | _ => false) &&
    (match lookupField "error" fields with
     | some (.obj efields) =>
       (match lookupField "id" efields with
        | some (.str _) => true
        | _ => false) &&
       (match lookupField "message" efields with
        | some (.str _) => true
        | _ => false)
     | _ => false)
  | _ => false

/-- The error ids with dedicated `ApiXResponseError` subclasses. -/
def knownErrorIds : List String :=
  ["unauthorizedApp", "unauthorizedRequest", "invalidRequest", "missingRequiredHeaders",
   "missingJsonBody", "invalidJsonBody", "insecureProtocol"]

/-- An `ApiXResponseError` value: id (`none` models a JavaScript `undefined`
id), HTTP status code, optional message, and whether a specific subclass
(known id) was selected. -/
structure ApiXResponseErrorV where
  id : Option String
  statusCode : Nat
  message : Option String
  specific : Bool
deriving DecidableEq

/-- The `switch (error.id)` at the end of `errorForResponse`. -/
def errorVariant (id : Option String) (statusCode : Nat) (msg : Option String) :
    ApiXResponseErrorV :=
  { id := id, statusCode := statusCode, message := msg,
    specific := match id with
      | some i => knownErrorIds.contains i
      | none => false }

/-- `errorForResponse(response)`: `none` data models an absent/null payload
(the guard `!responseData || typeof responseData !== 'object'` throws the
`unknownError` value; since the only caller immediately throws the result,
throwing and returning are observably the same and both are modelled as the
returned value). -/
def errorForResponse (data : Option JsonValue) (statusCode : Nat) : ApiXResponseErrorV :=
  match data with
  | some (.obj fields) =>
    let message : Option String :=
      match lookupField "message" fields with
      | some (.str m) => some m
      | _ => none
    (match lookupField "error" fields with
     | some (.obj efields) =>
       errorVariant
         (match lookupField "id" efields with
          | some (.str i) => some i
          | _ => none)
         statusCode
         (match lookupField "message" efields with
          | some (.str m) => some m
          | _ => none)
     | some (.arr _) =>
       -- an array is `typeof === 'object'` and non-null, but has no `id`/`message`
       errorVariant none statusCode none
     | some _ =>
       -- any other present value: property access yields `undefined`
       errorVariant none statusCode none
     | none =>
       -- destructuring default: pre-v2.1.x fallback id, deprecated top-level message
       errorVariant (some "ApiXResponseError") statusCode message)
  | some (.arr _) => errorVariant (some "ApiXResponseError") statusCode none
  | _ => errorVariant (some "unknownError") statusCode none

/-- An `ApiXResponse` value. -/
structure ApiXResponseV where
  data : Option JsonValue
  statusCode : Nat

/-- `ApiXRequest.handleResponse`: throw the classified error iff the payload
is truthy and passes `isApiXErrorResponse` (every value accepted by the guard
is truthy, so the truthiness test is absorbed by the guard). -/
def handleResponse (response : ApiXResponseV) : Except ApiXResponseErrorV ApiXResponseV :=
  match response.data with
  | some d =>
    if isApiXErrorResponse d then .error (errorForResponse (some d) response.statusCode)
    else .ok response
  | none => .ok response

/-! ### `ApiXRequest.make` -/

/-- A `KeyStore` getter result: the interface's declared type is
`string | Promise<string>`. -/
inductive KeyResult where
  | sync (s : String)
  | promise (resolved : String)

/-- The outcome of the transport (`fetch`) call: resolution with a parsed
JSON body (`none` when `response.json()` failed and was caught to `null`), or
rejection. -/
inductive TransportResult where
  | success (data : Option JsonValue) (status : Nat)
  | networkError (msg : String)

/-- What `make()` settles to. -/
inductive MakeOutcome where
  | ok (r : ApiXResponseV)
  | requestError (message : String)
  | responseError (e : ApiXResponseErrorV)
  | typeError

def alreadySentMessage : String :=
  "This request has already been sent. API-X does not allow attempting to send the same request multiple times."

/-- `ApiXRequest.make()`: refuse a second send, mark `sent`, install the
protected headers, run the transport, clear the protected headers, classify
the response; a transport rejection also clears and wraps.  The key-store
results are passed UNAWAITED, exactly as in the source
(`this.initializeProtectedHeaders(this.keyStore.getApiKey(), this.keyStore.getAppKey())`):
a `Promise` application key reaches `createHmac('sha256', appKey)`, which
accepts only strings/buffers/key objects and throws a `TypeError` before the
`try` block and before any header assignment; a `Promise` API key is
serialized into the header value as `String(promise)`.  The third component
records whether the transport was invoked. -/
def make (ctx : RequestCtx) (apiKeyR appKeyR : KeyResult) (nonce : String)
    (transport : TransportResult) (s : RequestState) :
    MakeOutcome × RequestState × Bool :=
  if s.sent then (.requestError alreadySentMessage, s, false)
  else
    let s1 : RequestState := { s with sent := true }
    match appKeyR with
    | .promise _ => (.typeError, s1, false)
    | .sync appKey =>
      let apiKeyWire := match apiKeyR with
        | .sync k => k
        | .promise _ => "[object Promise]"
      let s2 := initializeProtectedHeaders ctx s1 apiKeyWire appKey nonce
      match transport with
      | .networkError msg =>
        (.requestError ("API-X Request failed: " ++ msg), unsetProtectedHeaders s2, true)
      | .success data status =>
        let s3 := unsetProtectedHeaders s2
        let outcome := match handleResponse { data := data, statusCode := status } with
          | .ok r => MakeOutcome.ok r
          | .error e => MakeOutcome.responseError e
        (outcome, s3, true)

/-- Repeated `make()` calls with the given transport results; returns the
number of transport invocations and the final state. -/
def makeRuns (ctx : RequestCtx) (apiKeyR appKeyR : KeyResult) (nonce : String) :
    RequestState → List TransportResult → Nat × RequestState
  | s, [] => (0, s)
  | s, t :: ts =>
    let r := make ctx apiKeyR appKeyR nonce t s
    let rest := makeRuns ctx apiKeyR appKeyR nonce r.2.1 ts
    ((if r.2.2 then 1 else 0) + rest.1, rest.2)

/-- One public operation on a request, for reachability arguments. -/
inductive ROp where
  | setHeaderOp (name value : String)
  | unsetHeaderOp (name : String)
  | setCookiesOp (cookies : List (String × String))
  | addCookieOp (n v : String)
  | removeCookieOp (n : String)
  | makeOp (ctx : RequestCtx) (apiKeyR appKeyR : KeyResult) (nonce : String)
      (transport : TransportResult)

/-- Apply one public operation (failed header writes leave the state as-is,
matching the thrown exception). -/
def applyOp (s : RequestState) : ROp → RequestState
  | .setHeaderOp name value =>
    match setHeader s name value with
    | .ok s2 => s2
    | .error _ => s
  | .unsetHeaderOp name =>
    match unsetHeader s name with
    | .ok s2 => s2
    | .error _ => s
  | .setCookiesOp cookies => setCookies s cookies
  | .addCookieOp n v => addCookie s n v
  | .removeCookieOp n => removeCookie s n
  | .makeOp ctx a k nonce t => (make ctx a k nonce t s).2.1

/-- Run a sequence of public operations from a state. -/
def runOps (s : RequestState) (ops : List ROp) : RequestState :=
  ops.foldl applyOp s

/-- The repository test's request context. -/
def testCtx : RequestCtx :=
  { url := { pathname := "/endpoint/method", search := "?param=val" },
    httpMethod := "POST", data := some [("key", .str "value")] }

/-- The repository test's mocked request date. -/
def testDate : String := "Wed, 13 Nov 2024 15:00:00 GMT"

/-- `{success: true}`. -/
def successPayload : JsonValue := .obj [("success", .bool true)]

/-- `{success: false, message: 'old'}` — a pre-v2.1.x error payload with no
`error` object. -/
def legacyPayload : JsonValue := .obj [("success", .bool false), ("message", .str "old")]

/-- `{success:false, message:…, error:{id:'invalidRequest', message:…}}` —
the repository test's error payload. -/
def invalidReqPayload : JsonValue :=
  .obj [("success", .bool false), ("message", .str "The request is invalid."),
    ("error", .obj [("id", .str "invalidRequest"), ("message", .str "The request is invalid.")])]

/-- State invariant: no unprotected entry has a protected key, and read-only
keys are only the two set by the constructor. -/
def invB (s : RequestState) : Bool :=
  s.unprotectedHeaders.all (fun p => !(isProtectedHeader p.1)) &&
  s.readOnlyHeaders.all (fun p => p.1 == "content-type" || p.1 == "date")

/-! ### Symmetric encryption (`ApiXSymmetricEncryptionService`) -/

/-- UTF-8 encoding of a Unicode scalar value given as a number. -/
def utf8EncodeScalar (v : Nat) : List Nat :=
  if v < 128 then [v]
  else if v < 2048 then [192 + v / 64, 128 + v % 64]
  else if v < 65536 then [224 + v / 4096, 128 + v / 64 % 64, 128 + v % 64]
  else [240 + v / 262144, 128 + v / 4096 % 64, 128 + v / 64 % 64, 128 + v % 64]

/-- UTF-8 bytes of a UTF-16 code-unit sequence, as `Buffer.from(string)`
produces them: surrogate pairs are combined, lone surrogates become U+FFFD
(`EF BF BD`). -/
def utf16ToUtf8Bytes : List Nat → List Nat
  | [] => []
  | [u] => if u < 55296 ∨ 57343 < u then utf8EncodeScalar u else [239, 191, 189]
  | u :: u2 :: rest =>
    if u < 55296 ∨ 57343 < u then utf8EncodeScalar u ++ utf16ToUtf8Bytes (u2 :: rest)
    else if u < 56320 then
      if 56320 ≤ u2 ∧ u2 < 57344 then
        utf8EncodeScalar ((u - 55296) * 1024 + (u2 - 56320) + 65536) ++ utf16ToUtf8Bytes rest
      else [239, 191, 189] ++ utf16ToUtf8Bytes (u2 :: rest)
    else [239, 191, 189] ++ utf16ToUtf8Bytes (u2 :: rest)

/-- `Buffer.from(key.padEnd(32, '0').slice(0, 32))` — the effective cipher
key of all three handlers.  `padEnd` appends the CHARACTER `'0'` (0x30) up to
a length of 32 UTF-16 code units, `slice(0, 32)` keeps the first 32 units,
and `Buffer.from(string)` is the UTF-8 encoding; the result is exactly 32
bytes only when those units are all ASCII. -/
def keyBuffer (key : String) : List Nat :=
  let units := utf16Units key
  let padded := units ++ List.replicate (32 - units.length) 48
  utf16ToUtf8Bytes (padded.take 32)

/-- Stream/counter-mode encryption: XOR the data bytes with the keystream
determined by the key and the nonce/IV.  The keystream generator `ks` is the
interface boundary to the cipher primitive (ChaCha20 or AES-CTR/GCM counter
blocks); encryption and decryption both XOR with the same stream. -/
def xorKeystreamFrom (ks : List Nat → List Nat → Nat → Nat)
    (key nonce : List Nat) : Nat → List Nat → List Nat
  | _, [] => []
  | i, b :: rest => (b ^^^ ks key nonce i % 256) :: xorKeystreamFrom ks key nonce (i + 1) rest

def xorKeystream (ks : List Nat → List Nat → Nat → Nat)
    (key nonce data : List Nat) : List Nat :=
  xorKeystreamFrom ks key nonce 0 data

/-- Expect a literal prefix of characters. -/
def expectChars : List Char → List Char → Option (List Char)
  | [], rest => some rest
  | e :: es, c :: rest => if c = e then expectChars es rest else none
  | _ :: _, [] => none

def parseQuotedAux : List Char → List Char → Option (String × List Char)
  | [], _ => none
  | c :: rest, acc =>
    if c.toNat = 34 then some (String.mk acc.reverse, rest)
    else if c.toNat = 92 then none
    else parseQuotedAux rest (c :: acc)

/-- Parse a JSON string literal with no escape sequences (the envelope fields
are hex strings, which never need escaping). -/
def parseQuoted : List Char → Option (String × List Char)
  | c :: rest => if c.toNat = 34 then parseQuotedAux rest [] else none
  | [] => none

/-- All characters printable and needing no JSON escape (true of hex
strings and the envelope field names). -/
def charsPlain (s : String) : Bool :=
  s.data.all fun c => 32 ≤ c.toNat && c.toNat ≠ 34 && c.toNat ≠ 92

/-- Parse `<lead>"key":"value"`, returning the value and remaining input. -/
def parseKV (k : String) (lead cs : List Char) : Option (String × List Char) :=
  match expectChars lead cs with
  | none => none
  | some cs1 =>
    match parseQuoted cs1 with
    | none => none
    | some (n, cs2) =>
      if n = k then
        match expectChars ":".data cs2 with
        | none => none
        | some cs3 => parseQuoted cs3
      else none

/-- `JSON.parse` followed by destructuring of the three envelope fields,
modelled on the exact shapes `JSON.stringify({f1, f2, f3})` emits for
string-valued fields (the only inputs the handlers ever produce). -/
def envParse (k1 k2 k3 : String) (s : String) : Option (String × String × String) :=
  match parseKV k1 "\x7b".data s.data with
  | none => none
  | some (v1, cs1) =>
    match parseKV k2 ",".data cs1 with
    | none => none
    | some (v2, cs2) =>
      match parseKV k3 ",".data cs2 with
      | none => none
      | some (v3, cs3) =>
        match expectChars "\x7d".data cs3 with
        | some [] => some (v1, v2, v3)
        | _ => none

/-- `ChaChaEncryptionHandler.encrypt`: normalize the key, draw a 12-byte
nonce (`randomBytes(12)`, here a parameter), encrypt with the keystream and
hex-encode, read the Poly1305 auth tag (the deterministic function `tagFn` of
key, nonce and ciphertext), and emit the JSON envelope.  `createCipheriv`
rejects a key buffer that is not exactly 32 bytes (`Invalid key length`). -/
def chachaEncrypt (ks : List Nat → List Nat → Nat → Nat)
    (tagFn : List Nat → List Nat → List Nat → List Nat)
    (nonce : List Nat) (data key : String) : Except String String :=
  let keyBuf := keyBuffer key
  if keyBuf.length ≠ 32 then .error "Invalid key length"
  else if nonce.length ≠ 12 then .error "Invalid initialization vector"
  else
    let ct := xorKeystream ks keyBuf nonce (utf8Encode data)
    let authTag := tagFn keyBuf nonce ct
    .ok (stringifyValue (.obj [("encrypted", .str (bytesToHex ct)),
      ("nonce", .str (bytesToHex nonce)), ("authTag", .str (bytesToHex authTag))]))

/-- `ChaChaEncryptionHandler.decrypt`: parse the envelope, normalize the key,
set the auth tag, decrypt, and let `final()` verify the tag (mismatch throws
`Unsupported state or unable to authenticate data`). -/
def chachaDecrypt (ks : List Nat → List Nat → Nat → Nat)
    (tagFn : List Nat → List Nat → List Nat → List Nat)
    (encryptedData key : String) : Except String String :=
  match envParse "encrypted" "nonce" "authTag" encryptedData with
  | none => .error "Unexpected token in JSON"
  | some (encrypted, nonceHex, authTagHex) =>
    match hexDecode encrypted.data, hexDecode nonceHex.data, hexDecode authTagHex.data with
    | some ctBytes, some nonceBytes, some authTagBytes =>
      let keyBuf := keyBuffer key
      if keyBuf.length ≠ 32 then .error "Invalid key length"
      else if nonceBytes.length ≠ 12 then .error "Invalid initialization vector"
      else if tagFn keyBuf nonceBytes ctBytes = authTagBytes then
        match utf8Decode (xorKeystream ks keyBuf nonceBytes ctBytes) with
        | some plain => .ok plain
        | none => .error "Invalid UTF-8"
      else .error "Unsupported state or unable to authenticate data"
    | _, _, _ => .error "Invalid hex"

/-- `AESCTREncryptionHandler.encrypt`: 16-byte IV, separate HMAC-SHA256 over
IV ‖ ciphertext as the auth tag (already a hex string in the envelope). -/
def aesCtrEncrypt (ks : List Nat → List Nat → Nat → Nat)
    (iv : List Nat) (data key : String) : Except String String :=
  let keyBuf := keyBuffer key
  if keyBuf.length ≠ 32 then .error "Invalid key length"
  else if iv.length ≠ 16 then .error "Invalid initialization vector"
  else
    let ct := xorKeystream ks keyBuf iv (utf8Encode data)
    let authTag := bytesToHex (hmacSha256 keyBuf (iv ++ ct))
    .ok (stringifyValue (.obj [("encrypted", .str (bytesToHex ct)),
      ("iv", .str (bytesToHex iv)), ("authTag", .str authTag)]))

/-- `AESCTREncryptionHandler.decrypt`: recompute the HMAC and compare before
deciphering (`Authentication failed: Data may have been tampered with`). -/
def aesCtrDecrypt (ks : List Nat → List Nat → Nat → Nat)
    (encryptedData key : String) : Except String String :=
  match envParse "encrypted" "iv" "authTag" encryptedData with
  | none => .error "Unexpected token in JSON"
  | some (encrypted, ivHex, authTag) =>
    match hexDecode encrypted.data, hexDecode ivHex.data with
    | some ctBytes, some ivBytes =>
      let keyBuf := keyBuffer key
      let expectedAuthTag := bytesToHex (hmacSha256 keyBuf (ivBytes ++ ctBytes))
      if authTag ≠ expectedAuthTag then
        .error "Authentication failed: Data may have been tampered with"
      else if keyBuf.length ≠ 32 then .error "Invalid key length"
      else if ivBytes.length ≠ 16 then .error "Invalid initialization vector"
      else
        match utf8Decode (xorKeystream ks keyBuf ivBytes ctBytes) with
        | some plain => .ok plain
        | none => .error "Invalid UTF-8"
    | _, _ => .error "Invalid hex"

/-- `AESGCMEncryptionHandler.encrypt`: 12-byte IV, GCM auth tag embedded in
the envelope. -/
def aesGcmEncrypt (ks : List Nat → List Nat → Nat → Nat)
    (tagFn : List Nat → List Nat → List Nat → List Nat)
    (iv : List Nat) (data key : String) : Except String String :=
  let keyBuf := keyBuffer key
  if keyBuf.length ≠ 32 then .error "Invalid key length"
  else if iv.length ≠ 12 then .error "Invalid initialization vector"
  else
    let ct := xorKeystream ks keyBuf iv (utf8Encode data)
    let authTag := tagFn keyBuf iv ct
    .ok (stringifyValue (.obj [("encrypted", .str (bytesToHex ct)),
      ("iv", .str (bytesToHex iv)), ("authTag", .str (bytesToHex authTag))]))

/-- `AESGCMEncryptionHandler.decrypt`. -/
def aesGcmDecrypt (ks : List Nat → List Nat → Nat → Nat)
    (tagFn : List Nat → List Nat → List Nat → List Nat)
    (encryptedData key : String) : Except String String :=
  match envParse "encrypted" "iv" "authTag" encryptedData with
  | none => .error "Unexpected token in JSON"
  | some (encrypted, ivHex, authTagHex) =>
    match hexDecode encrypted.data, hexDecode ivHex.data, hexDecode authTagHex.data with
    | some ctBytes, some ivBytes, some authTagBytes =>
      let keyBuf := keyBuffer key
      if keyBuf.length ≠ 32 then .error "Invalid key length"
      else if ivBytes.length ≠ 12 then .error "Invalid initialization vector"
      else if tagFn keyBuf ivBytes ctBytes = authTagBytes then
        match utf8Decode (xorKeystream ks keyBuf ivBytes ctBytes) with
        | some plain => .ok plain
        | none => .error "Invalid UTF-8"
      else .error "Unsupported state or unable to authenticate data"
    | _, _, _ => .error "Invalid hex"

/-! ### Order lemmas for the default JavaScript string sort -/

theorem ltUnits_asymm : ∀ a b : List Nat, ltUnits a b = true → ltUnits b a = false
  | [], [] => by simp [ltUnits]
  | [], _ :: _ => by simp [ltUnits]
  | _ :: _, [] => by simp [ltUnits]
  | x :: xs, y :: ys => by
    simp only [ltUnits]
    rcases Nat.lt_trichotomy x y with hxy | hxy | hxy
    · intro _
      simp [hxy, Nat.lt_asymm hxy]
    · subst hxy
      simp only [lt_self_iff_false, if_false]
      exact ltUnits_asymm xs ys
    · intro h
      simp [hxy, Nat.lt_asymm hxy] at h
  termination_by a => a

theorem ltUnits_conn : ∀ a b : List Nat, ltUnits a b = false → ltUnits b a = false → a = b
  | [], [] => by simp
  | [], _ :: _ => by simp [ltUnits]
  | _ :: _, [] => by simp [ltUnits]
  | x :: xs, y :: ys => by
    simp only [ltUnits]
    rcases Nat.lt_trichotomy x y with hxy | hxy | hxy
    · intro h
      simp [hxy] at h
    · subst hxy
      simp only [lt_self_iff_false, if_false]
      intro h1 h2
      rw [ltUnits_conn xs ys h1 h2]
    · intro _ h
      simp [hxy, Nat.lt_asymm hxy] at h
  termination_by a => a

theorem ltUnits_trans : ∀ a b c : List Nat,
    ltUnits a b = true → ltUnits b c = true → ltUnits a c = true
  | [], b, [] => by
    intro h1 h2
    cases b with
    | nil => simp [ltUnits] at h1
    | cons y ys => simp [ltUnits] at h2
  | [], _, _ :: _ => by
    intro _ _
    simp [ltUnits]
  | _ :: _, [], _ => by
    intro h1 _
    simp [ltUnits] at h1
  | _ :: _, _ :: _, [] => by
    intro _ h2
    simp [ltUnits] at h2
  | x :: xs, y :: ys, z :: zs => by
    simp only [ltUnits]
    intro h1 h2
    rcases Nat.lt_trichotomy x y with hxy | hxy | hxy
    · rcases Nat.lt_trichotomy y z with hyz | hyz | hyz
      · simp [Nat.lt_trans hxy hyz]
      · subst hyz
        simp [hxy]
      · simp [hyz, Nat.lt_asymm hyz] at h2
    · subst hxy
      simp only [lt_self_iff_false, if_false] at h1
      rcases Nat.lt_trichotomy x z with hxz | hxz | hxz
      · simp [hxz]
      · subst hxz
        simp only [lt_self_iff_false, if_false] at h2 ⊢
        exact ltUnits_trans xs ys zs h1 h2
      · simp [hxz, Nat.lt_asymm hxz] at h2
    · simp [hxy, Nat.lt_asymm hxy] at h1
  termination_by a => a

/-! ### Injectivity of the UTF-16 encoding -/

theorem charValidRange (c : Char) : c.toNat < 55296 ∨ (57343 < c.toNat ∧ c.toNat < 1114112) := by
  have h := c.valid
  simp only [UInt32.isValidChar, Nat.isValidChar, Char.toNat] at h ⊢
  omega

theorem stringDataInj {s t : String} (h : s.data = t.data) : s = t := by
  cases s
  cases t
  exact congrArg String.mk h

theorem utf16_flat_inj : ∀ l1 l2 : List Char,
    l1.flatMap utf16Char = l2.flatMap utf16Char → l1 = l2
  | [], [], _ => rfl
  | [], c :: l2, h => by
    rw [List.flatMap_nil, List.flatMap_cons, utf16Char] at h
    split at h <;> simp at h
  | c :: l1, [], h => by
    rw [List.flatMap_nil, List.flatMap_cons, utf16Char] at h
    split at h <;> simp at h
  | c :: l1, d :: l2, h => by
    rw [List.flatMap_cons, List.flatMap_cons] at h
    have hc := charValidRange c
    have hd := charValidRange d
    rw [utf16Char, utf16Char] at h
    by_cases h1 : c.toNat < 65536 <;> by_cases h2 : d.toNat < 65536
    · rw [if_pos h1, if_pos h2] at h
      simp only [List.cons_append, List.nil_append, List.cons.injEq] at h
      have hcd : c = d := by
        rw [← Char.ofNat_toNat c, ← Char.ofNat_toNat d, h.1]
      rw [hcd, utf16_flat_inj l1 l2 h.2]
    · rw [if_pos h1, if_neg h2] at h
      simp only [List.cons_append, List.nil_append, List.cons.injEq] at h
      omega
    · rw [if_neg h1, if_pos h2] at h
      simp only [List.cons_append, List.nil_append, List.cons.injEq] at h
      omega
    · rw [if_neg h1, if_neg h2] at h
      simp only [List.cons_append, List.nil_append, List.cons.injEq] at h
      have hcd : c = d := by
        rw [← Char.ofNat_toNat c, ← Char.ofNat_toNat d]
        have hv : c.toNat = d.toNat := by omega
        rw [hv]
      rw [hcd, utf16_flat_inj l1 l2 h.2.2]

theorem utf16Units_inj {s t : String} (h : utf16Units s = utf16Units t) : s = t :=
  stringDataInj (utf16_flat_inj s.data t.data h)

/-! ### `jsStrLe` is a total preorder, antisymmetric on strings -/

theorem jsStrLe_iff (s t : String) :
    jsStrLe s t = true ↔ ltUnits (utf16Units t) (utf16Units s) = false := by
  unfold jsStrLe jsStrLt
  cases ltUnits (utf16Units t) (utf16Units s) <;> simp

theorem jsStrLe_total (a b : String) : jsStrLe a b = true ∨ jsStrLe b a = true := by
  rw [jsStrLe_iff, jsStrLe_iff]
  rcases Bool.eq_false_or_eq_true (ltUnits (utf16Units b) (utf16Units a)) with h | h
  · right
    exact ltUnits_asymm _ _ h
  · left
    exact h

theorem jsStrLe_trans {a b c : String} (h1 : jsStrLe a b = true) (h2 : jsStrLe b c = true) :
    jsStrLe a c = true := by
  rw [jsStrLe_iff] at h1 h2 ⊢
  rcases Bool.eq_false_or_eq_true (ltUnits (utf16Units c) (utf16Units a)) with hca | hca
  · rcases Bool.eq_false_or_eq_true (ltUnits (utf16Units a) (utf16Units b)) with hab | hab
    · have hcb := ltUnits_trans _ _ _ hca hab
      rw [hcb] at h2
      exact absurd h2 (by simp)
    · have heq := ltUnits_conn _ _ hab h1
      rw [← heq] at h2
      rw [h2] at hca
      exact absurd hca (by simp)
  · exact hca

theorem jsStrLe_antisymm {a b : String} (h1 : jsStrLe a b = true) (h2 : jsStrLe b a = true) :
    a = b := by
  rw [jsStrLe_iff] at h1 h2
  exact utf16Units_inj (ltUnits_conn _ _ h2 h1)

/-! ### Sorted permutations with distinct keys are equal -/

theorem sorted_perm_nodup_eq : ∀ l1 l2 : List (String × JsonValue),
    l1.Perm l2 → l1.Sorted keyLe → l2.Sorted keyLe → (l1.map Prod.fst).Nodup → l1 = l2
  | [], _, hperm, _, _, _ => hperm.nil_eq
  | p :: t1, l2, hperm, hs1, hs2, hnd => by
    cases l2 with
    | nil => exact absurd hperm.symm.nil_eq (by simp)
    | cons q t2 =>
      have hpq : p = q := by
        by_contra hne
        have hp2 : p ∈ q :: t2 := hperm.mem_iff.mp (List.mem_cons_self p t1)
        have hq1 : q ∈ p :: t1 := hperm.mem_iff.mpr (List.mem_cons_self q t2)
        have hpt2 : p ∈ t2 := by
          rcases List.mem_cons.mp hp2 with h | h
          · exact absurd h hne
          · exact h
        have hqt1 : q ∈ t1 := by
          rcases List.mem_cons.mp hq1 with h | h
          · exact absurd h.symm hne
          · exact h
        have hle1 : keyLe p q := (List.sorted_cons.mp hs1).1 q hqt1
        have hle2 : keyLe q p := (List.sorted_cons.mp hs2).1 p hpt2
        have hkey : p.1 = q.1 := jsStrLe_antisymm hle1 hle2
        have hmem : p.1 ∈ t1.map Prod.fst := by
          rw [hkey]
          exact List.mem_map_of_mem Prod.fst hqt1
        have hnd2 := hnd
        rw [List.map_cons, List.nodup_cons] at hnd2
        exact hnd2.1 hmem
      subst hpq
      have htperm : t1.Perm t2 := hperm.cons_inv
      have hndt : (t1.map Prod.fst).Nodup := by
        rw [List.map_cons, List.nodup_cons] at hnd
        exact hnd.2
      have hrec := sorted_perm_nodup_eq t1 t2 htperm (List.sorted_cons.mp hs1).2
        (List.sorted_cons.mp hs2).2 hndt
      rw [hrec]

theorem sortPairs_perm (l : List (String × JsonValue)) : (sortPairs l).Perm l :=
  List.perm_insertionSort keyLe l

theorem sortPairs_sorted (l : List (String × JsonValue)) : (sortPairs l).Sorted keyLe := by
  haveI : IsTotal (String × JsonValue) keyLe := ⟨fun p q => jsStrLe_total p.1 q.1⟩
  haveI : IsTrans (String × JsonValue) keyLe := ⟨fun _ _ _ h1 h2 => jsStrLe_trans h1 h2⟩
  exact List.sorted_insertionSort keyLe l

theorem sortPairs_eq_of_perm {l1 l2 : List (String × JsonValue)} (hperm : l1.Perm l2)
    (hnd : (l1.map Prod.fst).Nodup) : sortPairs l1 = sortPairs l2 :=
  sorted_perm_nodup_eq _ _ ((sortPairs_perm l1).trans (hperm.trans (sortPairs_perm l2).symm))
    (sortPairs_sorted l1) (sortPairs_sorted l2)
    (((sortPairs_perm l1).map Prod.fst).nodup_iff.mpr hnd)

/-! ### `sortedObjectKeys` respects key-order equivalence outside arrays -/

theorem sortedFieldValues_eq_map (l : List (String × JsonValue)) :
    sortedFieldValues l = l.map fun p => (p.1, sortedValue p.2) := by
  induction l with
  | nil => rfl
  | cons p rest ih =>
    cases p with
    | mk k v => simp [sortedFieldValues, ih]

theorem nodupStrKeys_iff (l : List String) : nodupStrKeys l = true ↔ l.Nodup := by
  induction l with
  | nil => simp [nodupStrKeys]
  | cons k rest ih =>
    simp [nodupStrKeys, List.nodup_cons, ih, List.elem_iff]

theorem nodupFieldsB_iff (l : List (String × JsonValue)) :
    nodupFieldsB l = true ↔ ∀ p ∈ l, nodupKeysB p.2 = true := by
  induction l with
  | nil => simp [nodupFieldsB]
  | cons p rest ih =>
    cases p with
    | mk k v =>
      simp only [nodupFieldsB, Bool.and_eq_true, ih, List.mem_cons]
      constructor
      · rintro ⟨hv, hrest⟩ q (rfl | hq)
        · exact hv
        · exact hrest q hq
      · intro h
        exact ⟨h (k, v) (Or.inl rfl), fun q hq => h q (Or.inr hq)⟩

theorem keyPerm_nodup {v w : JsonValue} (h : KeyPerm v w) :
    nodupKeysB v = true → nodupKeysB w = true := by
  induction h with
  | refl => exact id
  | permFields fa fb hp =>
    intro hv
    simp only [nodupKeysB, Bool.and_eq_true] at hv ⊢
    constructor
    · rw [nodupStrKeys_iff] at hv ⊢
      exact ((hp.map Prod.fst).nodup_iff).mp hv.1
    · rw [nodupFieldsB_iff] at hv ⊢
      intro p hpmem
      exact hv.2 p (hp.mem_iff.mpr hpmem)
  | congrField l1 l2 k a b hab ih =>
    intro hv
    simp only [nodupKeysB, Bool.and_eq_true] at hv ⊢
    constructor
    · have hkeys : (l1 ++ (k, b) :: l2).map Prod.fst = (l1 ++ (k, a) :: l2).map Prod.fst := by
        simp
      rw [hkeys]
      exact hv.1
    · rw [nodupFieldsB_iff] at hv ⊢
      intro p hpmem
      rcases List.mem_append.mp hpmem with hmem | hmem
      · exact hv.2 p (List.mem_append.mpr (Or.inl hmem))
      · rcases List.mem_cons.mp hmem with hmem | hmem
        · rw [hmem]
          exact ih (hv.2 (k, a) (List.mem_append.mpr (Or.inr (List.mem_cons_self _ _))))
        · exact hv.2 p (List.mem_append.mpr (Or.inr (List.mem_cons_of_mem _ hmem)))
  | trans h1 h2 ih1 ih2 => exact fun hv => ih2 (ih1 hv)

theorem keyPerm_sortedValue {v w : JsonValue} (h : KeyPerm v w) :
    nodupKeysB v = true → sortedValue v = sortedValue w := by
  induction h with
  | refl => exact fun _ => rfl
  | permFields fa fb hp =>
    intro hv
    simp only [sortedValue]
    congr 1
    apply sortPairs_eq_of_perm
    · rw [sortedFieldValues_eq_map, sortedFieldValues_eq_map]
      exact hp.map _
    · rw [sortedFieldValues_eq_map]
      have hkeys : ((fa.map fun p => (p.1, sortedValue p.2)).map Prod.fst) = fa.map Prod.fst := by
        simp
      rw [hkeys]
      simp only [nodupKeysB, Bool.and_eq_true] at hv
      exact (nodupStrKeys_iff _).mp hv.1
  | congrField l1 l2 k a b hab ih =>
    intro hv
    simp only [sortedValue]
    congr 1
    rw [sortedFieldValues_eq_map, sortedFieldValues_eq_map]
    simp only [List.map_append, List.map_cons]
    have hna : nodupKeysB a = true := by
      simp only [nodupKeysB, Bool.and_eq_true] at hv
      exact (nodupFieldsB_iff _).mp hv.2 (k, a)
        (List.mem_append.mpr (Or.inr (List.mem_cons_self _ _)))
    rw [ih hna]
  | trans h1 h2 ih1 ih2 =>
    intro hv
    rw [ih1 hv, ih2 (keyPerm_nodup h1 hv)]

theorem keyPerm_numFields {v w : JsonValue} (h : KeyPerm v w) : numFields v = numFields w := by
  induction h with
  | refl => rfl
  | permFields fa fb hp => simpa [numFields] using hp.length_eq
  | congrField l1 l2 k a b hab ih => simp [numFields]
  | trans h1 h2 ih1 ih2 => exact ih1.trans ih2

/-! ### Claim C1: the canonical message and signature -/

/-- C1: for a GET request to `https://x/y?z=1` (pathname `/y`, search `?z=1`)
with no body, nonce `abc`, date `Wed, 13 Nov 2024 15:00:00 GMT` and
application key `K`, the signature is HMAC-SHA256 keyed by `K` over the UTF-8
bytes of `/y?z=1.GET.abc.Wed, 13 Nov 2024 15:00:00 GMT.` rendered as lowercase
hex (concretely `913508e0…`); in general the canonical message is path+query,
method, nonce, date and the base64 body contribution joined by literal `.`
separators, with the empty string as body contribution for an empty body. -/
theorem canonical_signature_spec :
    (generateSignature ⟨"/y", "?z=1"⟩ "GET" none "K" "Wed, 13 Nov 2024 15:00:00 GMT" "abc"
       = bytesToHex (hmacSha256 (utf8Encode "K")
           (utf8Encode "/y?z=1.GET.abc.Wed, 13 Nov 2024 15:00:00 GMT."))) ∧
    (generateSignature ⟨"/y", "?z=1"⟩ "GET" none "K" "Wed, 13 Nov 2024 15:00:00 GMT" "abc"
       = "913508e05aeafa3e3bd3381f35cbda1d14faaa85f6cd482b22468b3be4ae1f53") ∧
    (∀ (url : UrlParts) (httpMethod : String) (data : Option (List (String × JsonValue)))
       (appKey dateString nonce : String),
       generateSignature url httpMethod data appKey dateString nonce
         = bytesToHex (hmacSha256 (utf8Encode appKey) (utf8Encode
             (url.pathname ++ url.search ++ "." ++ httpMethod ++ "." ++ nonce ++ "."
               ++ dateString ++ "." ++ bodyContribution data)))) ∧
    bodyContribution none = "" := by
  refine ⟨rfl, by decide, fun url m data k d n => rfl, rfl⟩

/-! ### Claim C2: key-order independence of the signature -/

/-- C2 (amended): signing two bodies that are equal up to object-key insertion
order at positions not nested inside arrays (relation `KeyPerm`), with the
same nonce, date, path, method and application key, yields identical
signatures, because `sortedObjectKeys` recursively sorts object keys at
exactly those positions.  (Objects nested inside arrays are NOT re-sorted —
see the counterexample.) -/
theorem signature_stable_under_keyPerm (url : UrlParts) (httpMethod : String)
    (b1 b2 : List (String × JsonValue)) (appKey dateString nonce : String)
    (hperm : KeyPerm (.obj b1) (.obj b2)) (hnd : nodupKeysB (.obj b1) = true) :
    generateSignature url httpMethod (some b1) appKey dateString nonce
      = generateSignature url httpMethod (some b2) appKey dateString nonce := by
  have hsorted := keyPerm_sortedValue hperm hnd
  simp only [sortedValue] at hsorted
  have hsok : sortPairs (sortedFieldValues b1) = sortPairs (sortedFieldValues b2) :=
    JsonValue.obj.inj hsorted
  have hlen : b1.length = b2.length := by
    simpa [numFields] using keyPerm_numFields hperm
  simp only [generateSignature, canonicalMessage, Option.getD_some, sortedObjectKeys]
  rw [hsok, hlen]

/-- Witness for C2 on the repository's own test bodies, reordered at both
nesting levels. -/
theorem signature_stable_under_keyPerm_witness :
    generateSignature ⟨"/endpoint/method", "?param=val"⟩ "POST" (some keyOrderBody1)
        "testAppKey" "Wed, 13 Nov 2024 15:00:00 GMT" "abc"
      = generateSignature ⟨"/endpoint/method", "?param=val"⟩ "POST" (some keyOrderBody2)
        "testAppKey" "Wed, 13 Nov 2024 15:00:00 GMT" "abc" :=
  signature_stable_under_keyPerm _ _ _ _ _ _ _
    (KeyPerm.trans
      (KeyPerm.congrField [("key", .str "value")] [] "key2"
        (.obj [("z", .str "z"), ("y", .str "y")]) (.obj [("y", .str "y"), ("z", .str "z")])
        (KeyPerm.permFields _ _ (List.Perm.swap _ _ [])))
      (KeyPerm.permFields _ _ (List.Perm.swap _ _ [])))
    (by decide)

/-- C2 counterexample: two structurally-equal bodies (in the claim's sense,
`jsonEquivB`) that differ only in the key insertion order of an object nested
inside an array produce DIFFERENT signatures, because `sortedObjectKeys` does
not recurse into arrays. -/
theorem signature_not_stable_inside_arrays :
    jsonEquivB (.obj bodyInArr1) (.obj bodyInArr2) = true ∧
    nodupKeysB (.obj bodyInArr1) = true ∧
    nodupKeysB (.obj bodyInArr2) = true ∧
    generateSignature ⟨"/y", "?z=1"⟩ "GET" (some bodyInArr1) "K"
        "Wed, 13 Nov 2024 15:00:00 GMT" "abc"
      ≠ generateSignature ⟨"/y", "?z=1"⟩ "GET" (some bodyInArr2) "K"
        "Wed, 13 Nov 2024 15:00:00 GMT" "abc" :=
  ⟨by decide, by decide, by decide, by decide⟩

/-! ### `make` helper lemmas -/

theorem make_already_sent (ctx : RequestCtx) (a k : KeyResult) (nonce : String)
    (t : TransportResult) (s : RequestState) (h : s.sent = true) :
    make ctx a k nonce t s = (.requestError alreadySentMessage, s, false) := by
  simp [make, h]

theorem make_sent_true (ctx : RequestCtx) (a k : KeyResult) (nonce : String)
    (t : TransportResult) (s : RequestState) :
    ((make ctx a k nonce t s).2.1).sent = true := by
  by_cases h : s.sent
  · simp [make, h]
  · unfold make
    rw [if_neg (by simp [h])]
    cases k with
    | promise r => rfl
    | sync ak =>
      cases t with
      | networkError m => rfl
      | success d st => rfl

theorem makeRuns_of_sent (ctx : RequestCtx) (a k : KeyResult) (nonce : String) :
    ∀ (ts : List TransportResult) (s : RequestState), s.sent = true →
      makeRuns ctx a k nonce s ts = (0, s)
  | [], s, _ => rfl
  | t :: ts, s, h => by
    simp only [makeRuns, make_already_sent ctx a k nonce t s h,
      makeRuns_of_sent ctx a k nonce ts s h]
    rfl

/-! ### Claim C4: one-shot send -/

/-- C4: the `sent` flag is checked first and flips to `true` on every `make`
path before the transport runs; a second `make` fails with the
"already sent" `ApiXRequestError` and performs no transport call, so any
sequence of `make` calls on one request invokes the transport at most once. -/
theorem make_one_shot :
    (∀ (ctx : RequestCtx) (a k : KeyResult) (nonce : String) (t : TransportResult)
       (s : RequestState), s.sent = true →
       make ctx a k nonce t s = (.requestError alreadySentMessage, s, false)) ∧
    (∀ (ctx : RequestCtx) (a k : KeyResult) (nonce : String) (t : TransportResult)
       (s : RequestState), ((make ctx a k nonce t s).2.1).sent = true) ∧
    (∀ (ctx : RequestCtx) (a k : KeyResult) (nonce : String) (ts : List TransportResult)
       (s : RequestState), (makeRuns ctx a k nonce s ts).1 ≤ 1) := by
  refine ⟨make_already_sent, make_sent_true, ?_⟩
  intro ctx a k nonce ts s
  cases ts with
  | nil => simp [makeRuns]
  | cons t ts =>
    have hsent := make_sent_true ctx a k nonce t s
    simp only [makeRuns, makeRuns_of_sent ctx a k nonce ts _ hsent]
    split <;> simp

/-- Witness for C4: a concrete already-sent request errors without transport,
and two successive calls on a fresh request invoke the transport once. -/
theorem make_one_shot_witness :
    make testCtx (.sync "testApiKey") (.sync "testAppKey") "abc"
        (.success (some successPayload) 200) { initialState testDate with sent := true }
      = (.requestError alreadySentMessage, { initialState testDate with sent := true }, false) ∧
    (makeRuns testCtx (.sync "testApiKey") (.sync "testAppKey") "abc" (initialState testDate)
        [.success (some successPayload) 200, .success (some successPayload) 200]).1 ≤ 1 :=
  ⟨make_one_shot.1 _ _ _ _ _ _ rfl,
   make_one_shot.2.2 testCtx (.sync "testApiKey") (.sync "testAppKey") "abc" _ _⟩

/-! ### Claim C3: protected headers after `make` -/

/-- C3 (code bug): after `make()` resolves on a fresh request — here shown for
both a successful transport and a transport failure — the protected header
storage still contains the `x-api-key` entry, because `unsetProtectedHeaders`
deletes that key from `readOnlyHeaders` instead of `protectedHeaders`; only
the signature and nonce entries are removed.  This contradicts the claim and
the repository's own test (`protectedHeaders['x-api-key']` expected
undefined after `make`). -/
theorem api_key_survives_make :
    ((make testCtx (.sync "testApiKey") (.sync "testAppKey") "abc"
        (.success (some successPayload) 200) (initialState testDate)).2.1.protectedHeaders
      = [("x-api-key", "testApiKey")]) ∧
    ((make testCtx (.sync "testApiKey") (.sync "testAppKey") "abc"
        (.networkError "Error: Network Error") (initialState testDate)).2.1.protectedHeaders
      = [("x-api-key", "testApiKey")]) :=
  ⟨rfl, rfl⟩

/-! ### Claim C5: classification of unsuccessful responses -/

/-- C5 counterexample: the backward-compatibility payload
`{success:false, message:"old"}` (no `error` field) is NOT classified: the
guard `isApiXErrorResponse` requires a well-formed `error` object, so the
send path returns the bare response instead of throwing — exactly what the
repository's test "should handle request failure gracefully with API-X error
response" asserts.  The deprecated-message fallback does exist inside
`errorForResponse`, but the send path never reaches it for this payload. -/
theorem legacy_error_response_returned_bare :
    isApiXErrorResponse legacyPayload = false ∧
    handleResponse { data := some legacyPayload, statusCode := 400 }
      = .ok { data := some legacyPayload, statusCode := 400 } ∧
    (make testCtx (.sync "testApiKey") (.sync "testAppKey") "abc"
        (.success (some legacyPayload) 400) (initialState testDate)).1
      = .ok { data := some legacyPayload, statusCode := 400 } ∧
    errorForResponse (some legacyPayload) 400
      = { id := some "ApiXResponseError", statusCode := 400, message := some "old", specific := false } :=
  ⟨rfl, rfl, rfl, rfl⟩

/-- C5 (amended): whenever the transport resolves with a payload that passes
`isApiXErrorResponse` (marked unsuccessful AND carrying a well-formed `error`
object with string `id` and `message`), the send path invokes the classifier
and settles with the typed error instead of the bare response; for payloads
marked unsuccessful without such an `error` object — e.g.
`{success:false, message:"old"}` — the bare response is returned, while the
classifier function itself still maps that payload to a default-id error
preserving the message. -/
theorem error_response_classified (ctx : RequestCtx) (apiKey appKey nonce : String)
    (d : JsonValue) (status : Nat) (s : RequestState) (hsent : s.sent = false)
    (herr : isApiXErrorResponse d = true) :
    (make ctx (.sync apiKey) (.sync appKey) nonce (.success (some d) status) s).1
      = .responseError (errorForResponse (some d) status) ∧
    (make ctx (.sync apiKey) (.sync appKey) nonce (.success (some d) status) s).2.2
      = true := by
  unfold make
  rw [if_neg (by simp [hsent])]
  simp [handleResponse, herr]

/-- Witness for C5 on the repository's own error-response test payload. -/
theorem error_response_classified_witness :
    (make testCtx (.sync "testApiKey") (.sync "testAppKey") "abc"
        (.success (some invalidReqPayload) 400) (initialState testDate)).1
      = .responseError
          { id := some "invalidRequest", statusCode := 400, message := some "The request is invalid.", specific := true } :=
  (error_response_classified testCtx "testApiKey" "testAppKey" "abc" invalidReqPayload 400 (initialState testDate) rfl (by decide)).1

/-! ### Claim C8: asynchronous key stores -/

/-- C8 (code bug): `make()` passes the key-store results to
`initializeProtectedHeaders` without awaiting them, although the
`ApiXKeyStore` interface declares `getApiKey(): string | Promise<string>`.
With promise-returning getters the unresolved application-key promise reaches
`createHmac('sha256', appKey)`, which throws a `TypeError` — `make` rejects
before any transport call and never signs with the resolved secrets,
contradicting the claim that asynchronous stores are supported identically. -/
theorem async_keystore_rejected (ctx : RequestCtx) (apiKey appKey nonce : String)
    (t : TransportResult) (s : RequestState) (hsent : s.sent = false) :
    make ctx (.promise apiKey) (.promise appKey) nonce t s
      = (.typeError, { s with sent := true }, false) := by
  unfold make
  rw [if_neg (by simp [hsent])]

/-- Witness for C8 at the repository test's key values. -/
theorem async_keystore_rejected_witness :
    make testCtx (.promise "testApiKey") (.promise "testAppKey") "abc"
        (.success (some successPayload) 200) (initialState testDate)
      = (.typeError, { initialState testDate with sent := true }, false) :=
  async_keystore_rejected _ "testApiKey" "testAppKey" "abc" _ _ rfl

/-! ### `headerName` normalization is idempotent -/

theorem charToNat_ofNat {n : Nat} (h : n.isValidChar) : (Char.ofNat n).toNat = n := by
  simp [Char.ofNat, h, Char.toNat, Char.ofNatAux, UInt32.toNat, UInt32.ofNat']

theorem lowerChar_toNat (c : Char) (h : 65 ≤ c.toNat ∧ c.toNat ≤ 90) :
    (lowerChar c).toNat = c.toNat + 32 := by
  rw [lowerChar, if_pos h]
  apply charToNat_ofNat
  left
  omega

theorem lowerChar_idem (c : Char) : lowerChar (lowerChar c) = lowerChar c := by
  by_cases h : 65 ≤ c.toNat ∧ c.toNat ≤ 90
  · have ht := lowerChar_toNat c h
    conv_lhs => rw [lowerChar]
    rw [if_neg (by omega)]
  · have hc : lowerChar c = c := by rw [lowerChar, if_neg h]
    rw [hc, hc]

theorem isWsChar_lowerChar (c : Char) : isWsChar (lowerChar c) = isWsChar c := by
  by_cases h : 65 ≤ c.toNat ∧ c.toNat ≤ 90
  · have ht := lowerChar_toNat c h
    have h1 : isWsChar (lowerChar c) = false := by
      simp only [isWsChar, ht]
      simp only [Bool.or_eq_false_iff, decide_eq_false_iff_not]
      omega
    have h2 : isWsChar c = false := by
      simp only [isWsChar]
      simp only [Bool.or_eq_false_iff, decide_eq_false_iff_not]
      omega
    rw [h1, h2]
  · have hc : lowerChar c = c := by rw [lowerChar, if_neg h]
    rw [hc]

theorem head_dropWhile_false (p : Char → Bool) : ∀ (l : List Char) (c : Char),
    (l.dropWhile p).head? = some c → p c = false
  | [], c, h => by simp [List.dropWhile] at h
  | a :: l, c, h => by
    rw [List.dropWhile_cons] at h
    by_cases hpa : p a
    · rw [if_pos hpa] at h
      exact head_dropWhile_false p l c h
    · rw [if_neg hpa] at h
      simp only [List.head?_cons, Option.some.injEq] at h
      subst h
      simpa using hpa

theorem dropWhile_head_false (p : Char → Bool) (l : List Char)
    (h : ∀ c, l.head? = some c → p c = false) : l.dropWhile p = l := by
  cases l with
  | nil => rfl
  | cons a l =>
    have hpa := h a (by rw [List.head?_cons])
    rw [List.dropWhile_cons, if_neg (by simp [hpa])]

theorem dropWhile_self (p : Char → Bool) (x : List Char) :
    (x.dropWhile p).dropWhile p = x.dropWhile p :=
  dropWhile_head_false p _ (fun c hc => head_dropWhile_false p x c hc)

theorem head?_of_front {l1 l2 : List Char} (h : l1 <+: l2) (hne : l1 ≠ []) :
    l2.head? = l1.head? := by
  rcases h with ⟨t, rfl⟩
  cases l1 with
  | nil => exact absurd rfl hne
  | cons a l => rfl

theorem trimChars_front (l : List Char) : trimChars l <+: l.dropWhile isWsChar := by
  have hsuf : (l.dropWhile isWsChar).reverse.dropWhile isWsChar
      <:+ (l.dropWhile isWsChar).reverse := List.dropWhile_suffix _
  rw [← List.reverse_reverse ((l.dropWhile isWsChar).reverse.dropWhile isWsChar)] at hsuf
  exact List.reverse_suffix.mp hsuf

theorem trimChars_head_false (l : List Char) (c : Char)
    (h : (trimChars l).head? = some c) : isWsChar c = false := by
  have hne : trimChars l ≠ [] := by
    intro he
    rw [he] at h
    simp at h
  have hpre := head?_of_front (trimChars_front l) hne
  rw [h] at hpre
  exact head_dropWhile_false isWsChar l c hpre

theorem trimChars_idem (l : List Char) : trimChars (trimChars l) = trimChars l := by
  have h1 : (trimChars l).dropWhile isWsChar = trimChars l :=
    dropWhile_head_false _ _ (fun c hc => trimChars_head_false l c hc)
  show (((trimChars l).dropWhile isWsChar).reverse.dropWhile isWsChar).reverse = trimChars l
  rw [h1]
  have h2 : (trimChars l).reverse = ((l.dropWhile isWsChar).reverse).dropWhile isWsChar := by
    show ((((l.dropWhile isWsChar).reverse).dropWhile isWsChar).reverse).reverse = _
    rw [List.reverse_reverse]
  rw [h2, dropWhile_self]
  rfl

theorem trimChars_map_lower (l : List Char) :
    trimChars (l.map lowerChar) = (trimChars l).map lowerChar := by
  have hws : (isWsChar ∘ lowerChar) = isWsChar := funext fun c => isWsChar_lowerChar c
  show (((l.map lowerChar).dropWhile isWsChar).reverse.dropWhile isWsChar).reverse = _
  rw [List.dropWhile_map, hws, ← List.map_reverse, List.dropWhile_map, hws, ← List.map_reverse]
  rfl

theorem headerName_idem (s : String) : headerName (headerName s) = headerName s := by
  show String.mk ((trimChars ((trimChars s.data).map lowerChar)).map lowerChar) = _
  rw [trimChars_map_lower, trimChars_idem, List.map_map]
  have hll : lowerChar ∘ lowerChar = lowerChar := funext lowerChar_idem
  rw [hll]
  rfl

theorem isProtectedHeader_headerName (name : String) :
    isProtectedHeader (headerName name) = isProtectedHeader name := by
  rw [isProtectedHeader, isProtectedHeader, headerName_idem]

/-! ### Claim C9: protected header access errors -/

/-- C9: for every name that normalizes (trim + lowercase) to one of the three
protected header names — hence in any case variant and with surrounding
whitespace — and in every state: `header` throws
"Invalid access. <name> is a protected header and cannot be accessed.",
while `setHeader`/`unsetHeader` throw the distinct errors
"Attempting to set/unset a protected header: <name>!"; the error results
carry no new state, so no header map is modified. -/
theorem protected_header_access (s : RequestState) (name value : String)
    (h : isProtectedHeader name = true) :
    header s name
      = .error ("Invalid access. " ++ name ++ " is a protected header and cannot be accessed.") ∧
    setHeader s name value
      = .error ("Attempting to set a protected header: " ++ name ++ "!") ∧
    unsetHeader s name
      = .error ("Attempting to unset a protected header: " ++ name ++ "!") := by
  have h2 : isProtectedHeader (headerName name) = true := by
    rw [isProtectedHeader_headerName]
    exact h
  refine ⟨?_, ?_, ?_⟩
  · rw [header]
    simp [h2]
  · rw [setHeader]
    simp [h2]
  · rw [unsetHeader]
    simp [h2]

/-- Witness for C9: an uppercase, whitespace-padded variant of `X-Signature`
on a concrete request state. -/
theorem protected_header_access_witness :
    header (initialState testDate) "  X-SIGNATURE  "
      = .error ("Invalid access. " ++ "  X-SIGNATURE  "
          ++ " is a protected header and cannot be accessed.") ∧
    setHeader (initialState testDate) "  X-SIGNATURE  " "value"
      = .error ("Attempting to set a protected header: " ++ "  X-SIGNATURE  " ++ "!") ∧
    unsetHeader (initialState testDate) "  X-SIGNATURE  "
      = .error ("Attempting to unset a protected header: " ++ "  X-SIGNATURE  " ++ "!") :=
  protected_header_access (initialState testDate) "  X-SIGNATURE  " "value" (by decide)

/-! ### Record-membership lemmas -/

theorem mem_recSet : ∀ (m : List (String × String)) (k v : String) (q : String × String),
    q ∈ recSet m k v → q = (k, v) ∨ q ∈ m
  | [], k, v, q, h => by
    rw [recSet] at h
    exact Or.inl (by simpa using h)
  | (k2, v2) :: rest, k, v, q, h => by
    rw [recSet] at h
    by_cases hk : k2 = k
    · rw [if_pos hk] at h
      rcases List.mem_cons.mp h with h | h
      · exact Or.inl h
      · exact Or.inr (List.mem_cons_of_mem _ h)
    · rw [if_neg hk] at h
      rcases List.mem_cons.mp h with h | h
      · exact Or.inr (by rw [h]; exact List.mem_cons_self _ _)
      · rcases mem_recSet rest k v q h with h | h
        · exact Or.inl h
        · exact Or.inr (List.mem_cons_of_mem _ h)

theorem mem_recDelete : ∀ (m : List (String × String)) (k : String) (q : String × String),
    q ∈ recDelete m k → q ∈ m
  | [], _, _, h => by simp [recDelete] at h
  | (k2, v2) :: rest, k, q, h => by
    rw [recDelete] at h
    by_cases hk : k2 = k
    · rw [if_pos hk] at h
      exact List.mem_cons_of_mem _ h
    · rw [if_neg hk] at h
      rcases List.mem_cons.mp h with h | h
      · rw [h]
        exact List.mem_cons_self _ _
      · exact List.mem_cons_of_mem _ (mem_recDelete rest k q h)

theorem mem_spreadMerge : ∀ (b a : List (String × String)) (q : String × String),
    q ∈ spreadMerge a b → q ∈ a ∨ q ∈ b
  | [], _, _, h => Or.inl h
  | (k, v) :: b, a, q, h => by
    have h2 : q ∈ spreadMerge (recSet a k v) b := h
    rcases mem_spreadMerge b (recSet a k v) q h2 with h3 | h3
    · rcases mem_recSet a k v q h3 with h4 | h4
      · exact Or.inr (by rw [h4]; exact List.mem_cons_self _ _)
      · exact Or.inl h4
    · exact Or.inr (List.mem_cons_of_mem _ h3)

/-! ### The invariant is preserved by every public operation -/

theorem make_state_unprot (ctx : RequestCtx) (a k : KeyResult) (nonce : String)
    (t : TransportResult) (s : RequestState) :
    (make ctx a k nonce t s).2.1.unprotectedHeaders = s.unprotectedHeaders := by
  by_cases h : s.sent
  · simp [make, h]
  · unfold make
    rw [if_neg (by simp [h])]
    cases k with
    | promise r => rfl
    | sync ak =>
      cases t with
      | networkError m => rfl
      | success d st => rfl

theorem make_state_readOnly (ctx : RequestCtx) (a k : KeyResult) (nonce : String)
    (t : TransportResult) (s : RequestState) (q : String × String)
    (hq : q ∈ (make ctx a k nonce t s).2.1.readOnlyHeaders) : q ∈ s.readOnlyHeaders := by
  by_cases h : s.sent
  · rw [make_already_sent ctx a k nonce t s (by simpa using h)] at hq
    exact hq
  · rw [make.eq_def] at hq
    rw [if_neg (by simp [h])] at hq
    cases k with
    | promise r => exact hq
    | sync ak =>
      cases t with
      | networkError m => exact mem_recDelete _ _ _ hq
      | success d st => exact mem_recDelete _ _ _ hq

theorem invB_applyOp (s : RequestState) (op : ROp) (h : invB s = true) :
    invB (applyOp s op) = true := by
  rw [invB, Bool.and_eq_true, List.all_eq_true, List.all_eq_true]
  rw [invB, Bool.and_eq_true, List.all_eq_true, List.all_eq_true] at h
  cases op with
  | setHeaderOp name value =>
    rw [applyOp]
    rw [setHeader]
    by_cases hg : (isProtectedHeader (headerName name)
        || isReadOnlyHeader (headerName name)) = true
    · rw [if_pos (by simpa using hg)]
      exact h
    · rw [if_neg (by simpa using hg)]
      refine ⟨?_, h.2⟩
      intro q hq
      rcases mem_recSet _ _ _ q hq with h2 | h2
      · rw [h2]
        have hor : (isProtectedHeader (headerName name)
            || isReadOnlyHeader (headerName name)) = false := by
          simpa using hg
        have hp := (Bool.or_eq_false_iff.mp hor).1
        simp [hp]
      · exact h.1 q h2
  | unsetHeaderOp name =>
    rw [applyOp]
    rw [unsetHeader]
    by_cases hg : (isProtectedHeader (headerName name)
        || isReadOnlyHeader (headerName name)) = true
    · rw [if_pos (by simpa using hg)]
      exact h
    · rw [if_neg (by simpa using hg)]
      exact ⟨fun q hq => h.1 q (mem_recDelete _ _ _ hq), h.2⟩
  | setCookiesOp cookies => exact h
  | addCookieOp n v => exact h
  | removeCookieOp n => exact h
  | makeOp ctx a k nonce t =>
    refine ⟨?_, ?_⟩
    · intro q hq
      rw [applyOp, make_state_unprot] at hq
      exact h.1 q hq
    · intro q hq
      rw [applyOp] at hq
      exact h.2 q (make_state_readOnly ctx a k nonce t s q hq)

theorem invB_runOps : ∀ (ops : List ROp) (s : RequestState), invB s = true →
    invB (runOps s ops) = true
  | [], _, h => h
  | op :: ops, s, h => invB_runOps ops (applyOp s op) (invB_applyOp s op h)

/-! ### Claim C10: the public headers getter never exposes protected names -/

/-- C10: in every state reachable by public operations from a freshly
constructed request — before, during and after sends, successful or failed —
the record returned by the `headers` getter contains no entry whose
trimmed-lowercase key is `x-signature`, `x-signature-nonce` or `x-api-key`:
the getter merges only the unprotected, cookie and read-only maps, and no
public operation can put a protected name into those maps. -/
theorem headers_never_protected (requestDate : String) (ops : List ROp)
    (q : String × String)
    (hq : q ∈ headersGetter (runOps (initialState requestDate) ops)) :
    isProtectedHeader q.1 = false := by
  have hinv := invB_runOps ops (initialState requestDate) rfl
  rw [invB, Bool.and_eq_true, List.all_eq_true, List.all_eq_true] at hinv
  rcases mem_spreadMerge _ _ q hq with h1 | h1
  · rcases mem_spreadMerge _ _ q h1 with h2 | h2
    · have := hinv.1 q h2
      simpa using this
    · have hc : q.1 = "Cookie" := by
        rcases List.mem_cons.mp h2 with h3 | h3
        · rw [h3]
        · simp at h3
      rw [hc]
      decide
  · have := hinv.2 q h1
    rcases Bool.or_eq_true_iff.mp this with h2 | h2
    · rw [(by simpa using h2 : q.1 = "content-type")]
      decide
    · rw [(by simpa using h2 : q.1 = "date")]
      decide

/-- Witness for C10: a concrete run with a custom header and a completed
send. -/
theorem headers_never_protected_witness :
    isProtectedHeader ("x-custom-header", "v").1 = false :=
  headers_never_protected testDate
    [.setHeaderOp "X-Custom-Header" "v",
     .makeOp testCtx (.sync "testApiKey") (.sync "testAppKey") "abc"
       (.success (some successPayload) 200)]
    ("x-custom-header", "v") (by decide)

/-! ### Byte bounds -/

theorem utf8EncodeCharNat_lt (c : Char) : ∀ b ∈ utf8EncodeCharNat c, b < 256 := by
  intro b hb
  have hv := charValidRange c
  rw [utf8EncodeCharNat] at hb
  split_ifs at hb <;> simp at hb <;> omega

theorem utf8Encode_lt (s : String) : ∀ b ∈ utf8Encode s, b < 256 := by
  intro b hb
  rw [utf8Encode] at hb
  rcases List.mem_flatMap.mp hb with ⟨c, _, hbc⟩
  exact utf8EncodeCharNat_lt c b hbc

theorem xorKeystreamFrom_lt (ks : List Nat → List Nat → Nat → Nat) (key nonce : List Nat) :
    ∀ (i : Nat) (data : List Nat), (∀ b ∈ data, b < 256) →
      ∀ b ∈ xorKeystreamFrom ks key nonce i data, b < 256
  | _, [], _, b, hb => by simp [xorKeystreamFrom] at hb
  | i, d :: rest, hd, b, hb => by
    rw [xorKeystreamFrom] at hb
    rcases List.mem_cons.mp hb with hb | hb
    · rw [hb]
      have h1 : d < 2 ^ 8 := hd d (List.mem_cons_self _ _)
      have h2 : ks key nonce i % 256 < 2 ^ 8 := Nat.mod_lt _ (by omega)
      exact Nat.xor_lt_two_pow h1 h2
    · exact xorKeystreamFrom_lt ks key nonce (i + 1) rest
        (fun x hx => hd x (List.mem_cons_of_mem _ hx)) b hb

theorem xorKeystream_lt (ks : List Nat → List Nat → Nat → Nat) (key nonce data : List Nat)
    (hd : ∀ b ∈ data, b < 256) : ∀ b ∈ xorKeystream ks key nonce data, b < 256 :=
  xorKeystreamFrom_lt ks key nonce 0 data hd

theorem xorKeystreamFrom_involution (ks : List Nat → List Nat → Nat → Nat)
    (key nonce : List Nat) : ∀ (i : Nat) (data : List Nat),
      xorKeystreamFrom ks key nonce i (xorKeystreamFrom ks key nonce i data) = data
  | _, [] => rfl
  | i, d :: rest => by
    rw [xorKeystreamFrom, xorKeystreamFrom]
    rw [xorKeystreamFrom_involution ks key nonce (i + 1) rest]
    rw [Nat.xor_assoc, Nat.xor_self, Nat.xor_zero]

theorem xorKeystream_involution (ks : List Nat → List Nat → Nat → Nat)
    (key nonce data : List Nat) :
    xorKeystream ks key nonce (xorKeystream ks key nonce data) = data :=
  xorKeystreamFrom_involution ks key nonce 0 data

theorem natToBytesBE_lt (n len : Nat) : ∀ b ∈ natToBytesBE n len, b < 256 := by
  intro b hb
  rw [natToBytesBE] at hb
  rcases List.mem_map.mp hb with ⟨i, _, hbi⟩
  rw [← hbi]
  exact Nat.mod_lt _ (by omega)

theorem sha256_lt (msg : List Nat) : ∀ b ∈ sha256 msg, b < 256 := by
  intro b hb
  rw [sha256] at hb
  rcases List.mem_flatMap.mp hb with ⟨h, _, hbh⟩
  exact natToBytesBE_lt h 4 b hbh

theorem hmacSha256_lt (key msg : List Nat) : ∀ b ∈ hmacSha256 key msg, b < 256 := by
  intro b hb
  rw [hmacSha256] at hb
  exact sha256_lt _ b hb

/-! ### Hex round trip -/

theorem hexVal_hexDigit (n : Nat) (h : n < 16) : hexVal (hexDigit n) = some n := by
  interval_cases n <;> rfl

theorem hexDecode_bytesToHex : ∀ bs : List Nat, (∀ b ∈ bs, b < 256) →
    hexDecode (bytesToHex bs).data = some bs
  | [], _ => rfl
  | b :: rest, h => by
    have hb := h b (List.mem_cons_self _ _)
    have hrest : hexDecode (bytesToHex rest).data = some rest :=
      hexDecode_bytesToHex rest (fun x hx => h x (List.mem_cons_of_mem _ hx))
    show hexDecode (hexDigit (b / 16) :: hexDigit (b % 16) :: (bytesToHex rest).data)
      = some (b :: rest)
    rw [hexDecode, hexVal_hexDigit (b / 16) (by omega), hexVal_hexDigit (b % 16) (by omega),
      hrest]
    show some ((b / 16 * 16 + b % 16) :: rest) = some (b :: rest)
    have hbval : b / 16 * 16 + b % 16 = b := by omega
    rw [hbval]

/-! ### UTF-8 round trip -/

theorem utf8EncodeCharNat_ne_nil (c : Char) : utf8EncodeCharNat c ≠ [] := by
  rw [utf8EncodeCharNat]
  split_ifs <;> simp

theorem utf8DecodeOne_encode (c : Char) (rest : List Nat) :
    utf8DecodeOne (utf8EncodeCharNat c ++ rest) = some (c, rest) := by
  have hv := charValidRange c
  rw [utf8EncodeCharNat]
  by_cases h1 : c.toNat < 128
  · rw [if_pos h1]
    show utf8DecodeOne (c.toNat :: rest) = _
    rw [utf8DecodeOne, if_pos h1, Char.ofNat_toNat]
  · rw [if_neg h1]
    by_cases h2 : c.toNat < 2048
    · rw [if_pos h2]
      show utf8DecodeOne ((192 + c.toNat / 64) :: (128 + c.toNat % 64) :: rest) = _
      rw [utf8DecodeOne, if_neg (by omega), if_neg (by omega), if_pos (by omega), utf8Dec2,
        if_pos (by simp only [contByte, Bool.and_eq_true, decide_eq_true_eq]; omega)]
      have hval : (192 + c.toNat / 64 - 192) * 64 + (128 + c.toNat % 64 - 128) = c.toNat := by
        omega
      rw [hval, Char.ofNat_toNat]
    · rw [if_neg h2]
      by_cases h3 : c.toNat < 65536
      · rw [if_pos h3]
        show utf8DecodeOne ((224 + c.toNat / 4096) :: (128 + c.toNat / 64 % 64)
          :: (128 + c.toNat % 64) :: rest) = _
        rw [utf8DecodeOne, if_neg (by omega), if_neg (by omega), if_neg (by omega),
          if_pos (by omega), utf8Dec3,
          if_pos (by simp only [contByte, Bool.and_eq_true, decide_eq_true_eq]; omega)]
        have hval : (224 + c.toNat / 4096 - 224) * 4096 + (128 + c.toNat / 64 % 64 - 128) * 64
            + (128 + c.toNat % 64 - 128) = c.toNat := by
          omega
        rw [hval, Char.ofNat_toNat]
      · rw [if_neg h3]
        show utf8DecodeOne ((240 + c.toNat / 262144) :: (128 + c.toNat / 4096 % 64)
          :: (128 + c.toNat / 64 % 64) :: (128 + c.toNat % 64) :: rest) = _
        rw [utf8DecodeOne, if_neg (by omega), if_neg (by omega), if_neg (by omega),
          if_neg (by omega), if_pos (by omega), utf8Dec4,
          if_pos (by simp only [contByte, Bool.and_eq_true, decide_eq_true_eq]; omega)]
        have hval : (240 + c.toNat / 262144 - 240) * 262144
            + (128 + c.toNat / 4096 % 64 - 128) * 4096
            + (128 + c.toNat / 64 % 64 - 128) * 64 + (128 + c.toNat % 64 - 128) = c.toNat := by
          omega
        rw [hval, Char.ofNat_toNat]

theorem utf8DecodeListAux_encode : ∀ (l : List Char) (fuel : Nat),
    (l.flatMap utf8EncodeCharNat).length ≤ fuel →
    utf8DecodeListAux fuel (l.flatMap utf8EncodeCharNat) = some l
  | [], fuel, _ => by simp [utf8DecodeListAux]
  | c :: l, fuel, hfuel => by
    rw [List.flatMap_cons] at hfuel ⊢
    have hne : utf8EncodeCharNat c ≠ [] := utf8EncodeCharNat_ne_nil c
    have hlen : 1 ≤ (utf8EncodeCharNat c).length := by
      cases hc : utf8EncodeCharNat c with
      | nil => exact absurd hc hne
      | cons a t => simp
    rcases hl : utf8EncodeCharNat c ++ l.flatMap utf8EncodeCharNat with _ | ⟨b0, bs⟩
    · rcases List.append_eq_nil.mp hl with ⟨h1, _⟩
      exact absurd h1 hne
    · cases fuel with
      | zero =>
        rw [List.length_append] at hfuel
        omega
      | succ fuel =>
        rw [utf8DecodeListAux, ← hl, utf8DecodeOne_encode c _]
        show (utf8DecodeListAux fuel (l.flatMap utf8EncodeCharNat)).map (fun cs => c :: cs)
          = some (c :: l)
        rw [utf8DecodeListAux_encode l fuel (by rw [List.length_append] at hfuel; omega)]
        rfl

theorem utf8DecodeList_encode (l : List Char) :
    utf8DecodeList (l.flatMap utf8EncodeCharNat) = some l :=
  utf8DecodeListAux_encode l _ (Nat.le_refl _)

theorem stringMkData (s : String) : String.mk s.data = s := by
  cases s
  rfl

theorem utf8Decode_encode (s : String) : utf8Decode (utf8Encode s) = some s := by
  rw [utf8Decode, utf8Encode, utf8DecodeList_encode]
  show some (String.mk s.data) = some s
  rw [stringMkData]

/-! ### Envelope (JSON) round trip -/

theorem escapeJsonChar_plain (c : Char) (h1 : 32 ≤ c.toNat) (h2 : c.toNat ≠ 34)
    (h3 : c.toNat ≠ 92) : escapeJsonChar c = [c] := by
  rw [escapeJsonChar]
  split_ifs with ha hb hc hd he hf hg hh
  · rw [ha] at h2
    exact absurd (by decide) h2
  · rw [hb] at h3
    exact absurd (by decide) h3
  · rw [hc] at h1
    exact absurd h1 (by decide)
  · rw [hd] at h1
    exact absurd h1 (by decide)
  · rw [he] at h1
    exact absurd h1 (by decide)
  · rw [hf] at h1
    exact absurd h1 (by decide)
  · rw [hg] at h1
    exact absurd h1 (by decide)
  · omega
  · rfl

theorem flatMap_escape_plain : ∀ l : List Char,
    (∀ c ∈ l, (32 ≤ c.toNat && c.toNat ≠ 34 && c.toNat ≠ 92) = true) →
    l.flatMap escapeJsonChar = l
  | [], _ => rfl
  | c :: l, h => by
    have hc := h c (List.mem_cons_self _ _)
    simp only [Bool.and_eq_true, decide_eq_true_eq] at hc
    rw [List.flatMap_cons, escapeJsonChar_plain c hc.1.1 hc.1.2 hc.2,
      flatMap_escape_plain l (fun x hx => h x (List.mem_cons_of_mem _ hx))]
    rfl

theorem quoteJsonString_plain (v : String) (h : charsPlain v = true) :
    (quoteJsonString v).data = Char.ofNat 34 :: (v.data ++ [Char.ofNat 34]) := by
  rw [charsPlain, List.all_eq_true] at h
  show Char.ofNat 34 :: (v.data.flatMap escapeJsonChar ++ [Char.ofNat 34]) = _
  rw [flatMap_escape_plain v.data h]

theorem expectChars_append : ∀ (l rest : List Char), expectChars l (l ++ rest) = some rest
  | [], _ => rfl
  | c :: l, rest => by
    rw [List.cons_append, expectChars, if_pos rfl, expectChars_append l rest]

theorem parseQuotedAux_plain : ∀ (l : List Char) (acc rest : List Char),
    (∀ c ∈ l, (32 ≤ c.toNat && c.toNat ≠ 34 && c.toNat ≠ 92) = true) →
    parseQuotedAux (l ++ Char.ofNat 34 :: rest) acc
      = some (String.mk (acc.reverse ++ l), rest)
  | [], acc, rest, _ => by
    rw [List.nil_append, parseQuotedAux, if_pos (by decide)]
    rw [List.append_nil]
  | c :: l, acc, rest, h => by
    have hc := h c (List.mem_cons_self _ _)
    simp only [Bool.and_eq_true, decide_eq_true_eq] at hc
    rw [List.cons_append, parseQuotedAux, if_neg (by omega), if_neg (by omega)]
    rw [parseQuotedAux_plain l (c :: acc) rest (fun x hx => h x (List.mem_cons_of_mem _ hx))]
    rw [List.reverse_cons, List.append_assoc]
    rfl

theorem parseQuoted_quote (v : String) (rest : List Char) (h : charsPlain v = true) :
    parseQuoted ((quoteJsonString v).data ++ rest) = some (v, rest) := by
  rw [quoteJsonString_plain v h, List.cons_append, parseQuoted, if_pos (by decide)]
  rw [charsPlain, List.all_eq_true] at h
  rw [List.append_assoc, List.cons_append, List.nil_append]
  rw [parseQuotedAux_plain v.data [] rest h]
  rw [List.reverse_nil, List.nil_append, stringMkData]

theorem hexDigit_plain (n : Nat) (h : n < 16) :
    (32 ≤ (hexDigit n).toNat && (hexDigit n).toNat ≠ 34 && (hexDigit n).toNat ≠ 92) = true := by
  interval_cases n <;> decide

theorem bytesToHex_plain (bs : List Nat) (hbs : ∀ b ∈ bs, b < 256) :
    charsPlain (bytesToHex bs) = true := by
  rw [charsPlain, List.all_eq_true]
  intro c hc
  show (32 ≤ c.toNat && c.toNat ≠ 34 && c.toNat ≠ 92) = true
  have hc2 : c ∈ bs.flatMap fun b => [hexDigit (b / 16), hexDigit (b % 16)] := hc
  rcases List.mem_flatMap.mp hc2 with ⟨b, hbmem, hcb⟩
  have hb := hbs b hbmem
  rcases List.mem_cons.mp hcb with h | h
  · rw [h]
    exact hexDigit_plain (b / 16) (by omega)
  · rcases List.mem_cons.mp h with h | h
    · rw [h]
      exact hexDigit_plain (b % 16) (by omega)
    · simp at h

theorem expectChars_self (l : List Char) : expectChars l l = some [] := by
  have h := expectChars_append l []
  rwa [List.append_nil] at h

theorem envelope_data (k1 v1 k2 v2 k3 v3 : String) :
    (stringifyValue (.obj [(k1, .str v1), (k2, .str v2), (k3, .str v3)])).data
      = "\x7b".data ++ ((quoteJsonString k1).data ++ (":".data
      ++ ((quoteJsonString v1).data ++ (",".data ++ ((quoteJsonString k2).data ++ (":".data
      ++ ((quoteJsonString v2).data ++ (",".data ++ ((quoteJsonString k3).data ++ (":".data
      ++ ((quoteJsonString v3).data ++ "\x7d".data))))))))))) := by
  have hi : String.intercalate ","
      [quoteJsonString k1 ++ ":" ++ quoteJsonString v1,
       quoteJsonString k2 ++ ":" ++ quoteJsonString v2,
       quoteJsonString k3 ++ ":" ++ quoteJsonString v3]
      = quoteJsonString k1 ++ ":" ++ quoteJsonString v1 ++ "," ++ (quoteJsonString k2 ++ ":"
        ++ quoteJsonString v2) ++ "," ++ (quoteJsonString k3 ++ ":" ++ quoteJsonString v3) :=
    rfl
  show ("\x7b" ++ String.intercalate ","
      [quoteJsonString k1 ++ ":" ++ quoteJsonString v1,
       quoteJsonString k2 ++ ":" ++ quoteJsonString v2,
       quoteJsonString k3 ++ ":" ++ quoteJsonString v3] ++ "\x7d").data = _
  rw [hi]
  simp only [String.data_append, List.append_assoc]

theorem parseKV_quote (k v : String) (lead rest : List Char)
    (hk : charsPlain k = true) (hv : charsPlain v = true) :
    parseKV k lead (lead ++ ((quoteJsonString k).data
      ++ (":".data ++ ((quoteJsonString v).data ++ rest)))) = some (v, rest) := by
  simp only [parseKV]
  rw [expectChars_append]
  simp only []
  rw [parseQuoted_quote k _ hk]
  simp only []
  simp only [if_true]
  rw [expectChars_append]
  simp only []
  rw [parseQuoted_quote v _ hv]

theorem envParse_roundtrip (k1 v1 k2 v2 k3 v3 : String)
    (hk1 : charsPlain k1 = true) (hv1 : charsPlain v1 = true)
    (hk2 : charsPlain k2 = true) (hv2 : charsPlain v2 = true)
    (hk3 : charsPlain k3 = true) (hv3 : charsPlain v3 = true) :
    envParse k1 k2 k3 (stringifyValue (.obj [(k1, .str v1), (k2, .str v2), (k3, .str v3)]))
      = some (v1, v2, v3) := by
  simp only [envParse]
  rw [envelope_data k1 v1 k2 v2 k3 v3]
  rw [parseKV_quote k1 v1 _ _ hk1 hv1]
  simp only []
  rw [parseKV_quote k2 v2 _ _ hk2 hv2]
  simp only []
  rw [parseKV_quote k3 v3 _ _ hk3 hv3]
  simp only []
  rw [expectChars_self]

/-! ### Handler round trips -/

theorem chacha_roundtrip (ks : List Nat → List Nat → Nat → Nat)
    (tagFn : List Nat → List Nat → List Nat → List Nat) (nonce : List Nat)
    (data key env : String) (hnb : ∀ b ∈ nonce, b < 256)
    (htag : ∀ kb nb cb : List Nat, ∀ b ∈ tagFn kb nb cb, b < 256)
    (henc : chachaEncrypt ks tagFn nonce data key = .ok env) :
    chachaDecrypt ks tagFn env key = .ok data := by
  simp only [chachaEncrypt] at henc
  by_cases hkl : (keyBuffer key).length ≠ 32
  · rw [if_pos hkl] at henc
    simp at henc
  · rw [if_neg hkl] at henc
    by_cases hn12 : nonce.length ≠ 12
    · rw [if_pos hn12] at henc
      simp at henc
    · rw [if_neg hn12] at henc
      injection henc with henv
      subst henv
      have hctb : ∀ b ∈ xorKeystream ks (keyBuffer key) nonce (utf8Encode data), b < 256 :=
        xorKeystream_lt ks (keyBuffer key) nonce (utf8Encode data) (utf8Encode_lt data)
      simp only [chachaDecrypt]
      rw [envParse_roundtrip "encrypted" _ "nonce" _ "authTag" _
        (by decide) (bytesToHex_plain _ hctb) (by decide) (bytesToHex_plain _ hnb)
        (by decide) (bytesToHex_plain _ (htag _ _ _))]
      simp only []
      rw [hexDecode_bytesToHex _ hctb, hexDecode_bytesToHex _ hnb,
        hexDecode_bytesToHex _ (htag _ _ _)]
      simp only []
      rw [if_neg hkl, if_neg hn12]
      simp only [if_true]
      rw [xorKeystream_involution, utf8Decode_encode]

theorem aesCtr_roundtrip (ks : List Nat → List Nat → Nat → Nat) (iv : List Nat)
    (data key env : String) (hiv : ∀ b ∈ iv, b < 256)
    (henc : aesCtrEncrypt ks iv data key = .ok env) :
    aesCtrDecrypt ks env key = .ok data := by
  simp only [aesCtrEncrypt] at henc
  by_cases hkl : (keyBuffer key).length ≠ 32
  · rw [if_pos hkl] at henc
    simp at henc
  · rw [if_neg hkl] at henc
    by_cases hn16 : iv.length ≠ 16
    · rw [if_pos hn16] at henc
      simp at henc
    · rw [if_neg hn16] at henc
      injection henc with henv
      subst henv
      have hctb : ∀ b ∈ xorKeystream ks (keyBuffer key) iv (utf8Encode data), b < 256 :=
        xorKeystream_lt ks (keyBuffer key) iv (utf8Encode data) (utf8Encode_lt data)
      simp only [aesCtrDecrypt]
      rw [envParse_roundtrip "encrypted" _ "iv" _ "authTag" _
        (by decide) (bytesToHex_plain _ hctb) (by decide) (bytesToHex_plain _ hiv)
        (by decide) (bytesToHex_plain _ (hmacSha256_lt _ _))]
      simp only []
      rw [hexDecode_bytesToHex _ hctb, hexDecode_bytesToHex _ hiv]
      simp only []
      rw [if_neg (fun hne => hne rfl), if_neg hkl, if_neg hn16, xorKeystream_involution,
        utf8Decode_encode]

theorem aesGcm_roundtrip (ks : List Nat → List Nat → Nat → Nat)
    (tagFn : List Nat → List Nat → List Nat → List Nat) (iv : List Nat)
    (data key env : String) (hiv : ∀ b ∈ iv, b < 256)
    (htag : ∀ kb nb cb : List Nat, ∀ b ∈ tagFn kb nb cb, b < 256)
    (henc : aesGcmEncrypt ks tagFn iv data key = .ok env) :
    aesGcmDecrypt ks tagFn env key = .ok data := by
  simp only [aesGcmEncrypt] at henc
  by_cases hkl : (keyBuffer key).length ≠ 32
  · rw [if_pos hkl] at henc
    simp at henc
  · rw [if_neg hkl] at henc
    by_cases hn12 : iv.length ≠ 12
    · rw [if_pos hn12] at henc
      simp at henc
    · rw [if_neg hn12] at henc
      injection henc with henv
      subst henv
      have hctb : ∀ b ∈ xorKeystream ks (keyBuffer key) iv (utf8Encode data), b < 256 :=
        xorKeystream_lt ks (keyBuffer key) iv (utf8Encode data) (utf8Encode_lt data)
      simp only [aesGcmDecrypt]
      rw [envParse_roundtrip "encrypted" _ "iv" _ "authTag" _
        (by decide) (bytesToHex_plain _ hctb) (by decide) (bytesToHex_plain _ hiv)
        (by decide) (bytesToHex_plain _ (htag _ _ _))]
      simp only []
      rw [hexDecode_bytesToHex _ hctb, hexDecode_bytesToHex _ hiv,
        hexDecode_bytesToHex _ (htag _ _ _)]
      simp only []
      rw [if_neg hkl, if_neg hn12]
      simp only [if_true]
      rw [xorKeystream_involution, utf8Decode_encode]

/-! ### Claim C6: decrypt ∘ encrypt = id -/

/-- C6 (amended): for each of the three algorithm profiles and every UTF-8
string, whenever `encrypt` succeeds — which requires the normalized key
buffer to be exactly 32 bytes, true of every ASCII key but not of every key —
`decrypt` of its envelope under the same key returns the original string.
The cipher keystream and AEAD tag primitives are abstract parameters
(deterministic functions of key, nonce/IV and ciphertext, producing bytes),
which is all the round trip depends on. -/
theorem encryption_roundtrip :
    (∀ (ks : List Nat → List Nat → Nat → Nat)
       (tagFn : List Nat → List Nat → List Nat → List Nat)
       (nonce : List Nat) (data key env : String),
       (∀ b ∈ nonce, b < 256) →
       (∀ kb nb cb : List Nat, ∀ b ∈ tagFn kb nb cb, b < 256) →
       chachaEncrypt ks tagFn nonce data key = .ok env →
       chachaDecrypt ks tagFn env key = .ok data) ∧
    (∀ (ks : List Nat → List Nat → Nat → Nat) (iv : List Nat) (data key env : String),
       (∀ b ∈ iv, b < 256) →
       aesCtrEncrypt ks iv data key = .ok env →
       aesCtrDecrypt ks env key = .ok data) ∧
    (∀ (ks : List Nat → List Nat → Nat → Nat)
       (tagFn : List Nat → List Nat → List Nat → List Nat)
       (iv : List Nat) (data key env : String),
       (∀ b ∈ iv, b < 256) →
       (∀ kb nb cb : List Nat, ∀ b ∈ tagFn kb nb cb, b < 256) →
       aesGcmEncrypt ks tagFn iv data key = .ok env →
       aesGcmDecrypt ks tagFn env key = .ok data) :=
  ⟨chacha_roundtrip, aesCtr_roundtrip, aesGcm_roundtrip⟩

/-- Witness for C6: all three profiles round-trip a non-ASCII message under
the ASCII key `K`, with concrete keystream and tag functions. -/
theorem encryption_roundtrip_witness :
    chachaDecrypt (fun _ _ i => i * 13 % 256) (fun _ _ _ => [])
      ((chachaEncrypt (fun _ _ i => i * 13 % 256) (fun _ _ _ => [])
        (List.range 12) "héllo, 世界" "K").toOption.getD "") "K" = .ok "héllo, 世界" ∧
    aesCtrDecrypt (fun _ _ i => i * 13 % 256)
      ((aesCtrEncrypt (fun _ _ i => i * 13 % 256)
        (List.range 16) "héllo, 世界" "K").toOption.getD "") "K" = .ok "héllo, 世界" ∧
    aesGcmDecrypt (fun _ _ i => i * 13 % 256) (fun _ _ _ => [7])
      ((aesGcmEncrypt (fun _ _ i => i * 13 % 256) (fun _ _ _ => [7])
        (List.range 12) "héllo, 世界" "K").toOption.getD "") "K" = .ok "héllo, 世界" :=
  ⟨encryption_roundtrip.1 _ _ (List.range 12) "héllo, 世界" "K" _ (by decide)
      (fun kb nb cb b hb => absurd hb (List.not_mem_nil b)) rfl,
   encryption_roundtrip.2.1 _ (List.range 16) "héllo, 世界" "K" _ (by decide) rfl,
   encryption_roundtrip.2.2 _ _ (List.range 12) "héllo, 世界" "K" _ (by decide)
      (fun kb nb cb b hb => by
        rcases List.mem_singleton.mp hb with rfl
        omega) rfl⟩

/-- C6 counterexample: for the key `ñ` (one character), the normalized key
string is 32 UTF-16 units but its UTF-8 buffer is 33 bytes, so
`createCipheriv` throws `Invalid key length` in every profile and
`decrypt(encrypt(M, K), K)` cannot return `M` — the claim fails for keys
with non-ASCII content. -/
theorem encrypt_rejects_nonascii_key :
    chachaEncrypt (fun _ _ _ => 0) (fun _ _ _ => []) (List.range 12) "hello" "ñ"
      = .error "Invalid key length" ∧
    aesCtrEncrypt (fun _ _ _ => 0) (List.range 16) "hello" "ñ"
      = .error "Invalid key length" ∧
    aesGcmEncrypt (fun _ _ _ => 0) (fun _ _ _ => []) (List.range 12) "hello" "ñ"
      = .error "Invalid key length" ∧
    (keyBuffer "ñ").length = 33 :=
  ⟨rfl, rfl, rfl, by decide⟩

/-! ### Claim C7: the effective cipher key -/

theorem flatMap_utf16_ascii : ∀ l : List Char, (∀ c ∈ l, c.toNat < 128) →
    l.flatMap utf16Char = l.map Char.toNat
  | [], _ => rfl
  | c :: l, h => by
    have hc := h c (List.mem_cons_self _ _)
    rw [List.flatMap_cons, utf16Char, if_pos (by omega),
      flatMap_utf16_ascii l (fun x hx => h x (List.mem_cons_of_mem _ hx))]
    rfl

theorem flatMap_utf8_ascii : ∀ l : List Char, (∀ c ∈ l, c.toNat < 128) →
    l.flatMap utf8EncodeCharNat = l.map Char.toNat
  | [], _ => rfl
  | c :: l, h => by
    have hc := h c (List.mem_cons_self _ _)
    rw [List.flatMap_cons, utf8EncodeCharNat]
    rw [if_pos (by omega : c.toNat < 128)]
    rw [flatMap_utf8_ascii l (fun x hx => h x (List.mem_cons_of_mem _ hx))]
    rfl

theorem utf16ToUtf8_ascii : ∀ us : List Nat, (∀ u ∈ us, u < 128) → utf16ToUtf8Bytes us = us
  | [], _ => rfl
  | [u], h => by
    have hu := h u (List.mem_cons_self _ _)
    rw [utf16ToUtf8Bytes, if_pos (Or.inl (by omega)), utf8EncodeScalar, if_pos (by omega)]
  | u :: u2 :: rest, h => by
    have hu := h u (List.mem_cons_self _ _)
    rw [utf16ToUtf8Bytes, if_pos (Or.inl (by omega)), utf8EncodeScalar, if_pos (by omega)]
    rw [utf16ToUtf8_ascii (u2 :: rest) (fun x hx => h x (List.mem_cons_of_mem _ hx))]
    rfl

/-- C7 (amended): the effective 32-byte cipher key is the key padded on the
right with ASCII `'0'` characters (0x30, NOT zero bytes) to 32 UTF-16 code
units and truncated to the first 32 units, then UTF-8 encoded; for an ASCII
key this is the key's bytes truncated to 32, followed by 0x30 padding. -/
theorem keyBuffer_ascii_spec (key : String) (h : ∀ c ∈ key.data, c.toNat < 128) :
    keyBuffer key = (utf8Encode key).take 32 ++ List.replicate (32 - key.length) 48 := by
  have hunits : utf16Units key = key.data.map Char.toNat := flatMap_utf16_ascii key.data h
  have henc : utf8Encode key = key.data.map Char.toNat := flatMap_utf8_ascii key.data h
  have hlen : (key.data.map Char.toNat).length = key.length := by
    rw [List.length_map]
    rfl
  have hmem : ∀ u ∈ (key.data.map Char.toNat ++
      List.replicate (32 - (key.data.map Char.toNat).length) 48).take 32, u < 128 := by
    intro u hu
    have hu2 := List.mem_of_mem_take hu
    rcases List.mem_append.mp hu2 with h2 | h2
    · rcases List.mem_map.mp h2 with ⟨c, hc, rfl⟩
      exact h c hc
    · rw [List.eq_of_mem_replicate h2]
      omega
  simp only [keyBuffer, hunits]
  rw [utf16ToUtf8_ascii _ hmem]
  rw [List.take_append_eq_append_take, List.take_replicate, hlen, henc]
  have hmin : min (32 - key.length) (32 - key.length) = 32 - key.length := Nat.min_self _
  rw [hmin]

/-- Witness for C7 at the single-character ASCII key `K`. -/
theorem keyBuffer_ascii_spec_witness :
    keyBuffer "K" = (utf8Encode "K").take 32 ++ List.replicate (32 - "K".length) 48 :=
  keyBuffer_ascii_spec "K" (by decide)

/-- C7 counterexample: the padding byte is 0x30 (the character `'0'`), not
0x00, and a non-ASCII key does not normalize to 32 bytes at all. -/
theorem keyBuffer_not_zero_padded :
    keyBuffer "K" = 75 :: List.replicate 31 48 ∧
    keyBuffer "K" ≠ 75 :: List.replicate 31 0 ∧
    (keyBuffer "ñ").length = 33 :=
  ⟨by decide, by decide, by decide⟩

end ApiX
